import Mathlib

/-!
ab2rss: slug normaliser, catalog lister, feed builder, harvest coordinator.

A shallow embedding of `main.go`.  Go strings are modelled by `String`
(well-formed UTF-8), runes by `Char`, the `error` interface by `Option GoError`
(`none` is `nil`).  What the program obtains from libraries and from the outside
world (Unicode normalisation and category tables, HTTP, the HTML and JSON
decoders, the clock, the feed encoder, the file system) is passed in as
parameters.
-/

namespace Ab2rss

/-! ## Slug normaliser -/

/-- The library side of `Clean`: `golang.org/x/text/unicode/norm` and the
category tables of package `unicode`. -/
structure UnicodeLib where
  /-- The runes produced by `range norm.NFKD.String(s)`. -/
  nfkd : String → List Char
  /-- The test `unicode.IsOneOf(nop, r)` for
  `nop = {unicode.Mark, unicode.Sk, unicode.Lm, unicode.Cc, unicode.Cf}`. -/
  isNop : Char → Bool

/-- Models `Replacement = '_'`. -/
def Replacement : Char := '_'

/-- Models `unicode.In(r, alphanum)`: the range table `0-9`, `A-Z`, `a-z`. -/
def alphanum (r : Char) : Bool :=
  (0x0030 ≤ r.toNat && r.toNat ≤ 0x0039) ||
  (0x0041 ≤ r.toNat && r.toNat ≤ 0x005A) ||
  (0x0061 ≤ r.toNat && r.toNat ≤ 0x007A)

/-- Models `unicode.ToLower(r)` on the ASCII range, the only one `Clean` calls it on:
`if 'A' <= r && r <= 'Z' { r += 'a' - 'A' }`. -/
def toLower (r : Char) : Char :=
  if 0x0041 ≤ r.toNat ∧ r.toNat ≤ 0x005A then Char.ofNat (r.toNat + 0x20) else r

/-- The two locals of `Clean` that the loop updates. -/
structure ScanState where
  buf : List Char
  replacement : Bool
deriving DecidableEq, Repr

/-- One iteration of the `for _, r := range ...` loop: the `switch`. -/
def scanStep (U : UnicodeLib) (st : ScanState) (r : Char) : ScanState :=
  if alphanum r then
    { buf := st.buf ++ [toLower r], replacement := true }
  else if U.isNop r then
    st
  else if st.replacement then
    { buf := st.buf ++ [Replacement], replacement := false }
  else
    st

/-- The whole loop, from `buf = []`, `replacement = false`. -/
def scan (U : UnicodeLib) (rs : List Char) : ScanState :=
  rs.foldl (scanStep U) { buf := [], replacement := false }

/-- The statement after the loop:
`if i := len(buf) - 1; i >= 0 && buf[i] == Replacement { buf = buf[:i] }`. -/
def stripTrailing (buf : List Char) : List Char :=
  match buf.getLast? with
  | some c => if c = Replacement then buf.dropLast else buf
  | none => buf

/-- The runes of `Clean`'s result, as a function of the decomposed input. -/
def cleanRunes (U : UnicodeLib) (rs : List Char) : List Char :=
  stripTrailing (scan U rs).buf

/-- Models `func Clean(s string) string`. -/
def Clean (U : UnicodeLib) (s : String) : String :=
  String.mk (cleanRunes U (U.nfkd s))

/-! ### A fragment of the Unicode tables, for evaluating `Clean` -/

/-- Compatibility decomposition of single code points, on a fragment of the
Unicode character database.  The code points listed decompose as in
`UnicodeData.txt`; the others are left as they are, which is right for ASCII,
for the controls and for the other code points `nopFragment` names. -/
def decomposeChar (c : Char) : List Char :=
  match c.toNat with
  | 0x00A8 => [Char.ofNat 0x0020, Char.ofNat 0x0308]  -- DIAERESIS
  | 0x00AF => [Char.ofNat 0x0020, Char.ofNat 0x0304]  -- MACRON
  | 0x00B4 => [Char.ofNat 0x0020, Char.ofNat 0x0301]  -- ACUTE ACCENT
  | 0x00B8 => [Char.ofNat 0x0020, Char.ofNat 0x0327]  -- CEDILLA
  | 0x00C9 => [Char.ofNat 0x0045, Char.ofNat 0x0301]  -- E WITH ACUTE
  | 0x00E7 => [Char.ofNat 0x0063, Char.ofNat 0x0327]  -- c WITH CEDILLA
  | 0x00E8 => [Char.ofNat 0x0065, Char.ofNat 0x0300]  -- e WITH GRAVE
  | 0x00E9 => [Char.ofNat 0x0065, Char.ofNat 0x0301]  -- e WITH ACUTE
  | 0x02B0 => [Char.ofNat 0x0068]                     -- MODIFIER LETTER SMALL H
  | _ => [c]

/-- Membership in `Mark`, `Sk`, `Lm`, `Cc` or `Cf`, on a fragment of the tables
of package `unicode`: each code point accepted below is in the class named on
its line; below U+00A0 no other code point is in one of the five classes. -/
def nopFragment (c : Char) : Bool :=
  let n := c.toNat
  n ≤ 0x001F || (0x007F ≤ n && n ≤ 0x009F) ||                 -- Cc
  n = 0x00AD || (0x200B ≤ n && n ≤ 0x200F) ||                 -- Cf
  n = 0x005E || n = 0x0060 || n = 0x00A8 || n = 0x00AF || n = 0x00B4 || n = 0x00B8 ||  -- Sk
  n = 0x02B0 ||                                               -- Lm
  (0x0300 ≤ n && n ≤ 0x033F)                                  -- Mn

/-- The fragment as a `UnicodeLib`.  The canonical reordering of combining
marks is left out: `Clean` skips every mark, so its result does not depend on
their order. -/
def fragmentLib : UnicodeLib where
  nfkd := fun s => s.data.flatMap decomposeChar
  isNop := nopFragment

/-! ### The loop read from the front -/

/-- What the loop appends to `buf` when started with `replacement = flag`. -/
def scanOut (U : UnicodeLib) : Bool → List Char → List Char
  | _, [] => []
  | flag, r :: rs =>
    if alphanum r then toLower r :: scanOut U true rs
    else if U.isNop r then scanOut U flag rs
    else if flag then Replacement :: scanOut U false rs
    else scanOut U flag rs

/-- The value of `replacement` after the loop, when started with `flag`. -/
def scanFlag (U : UnicodeLib) : Bool → List Char → Bool
  | flag, [] => flag
  | flag, r :: rs =>
    if alphanum r then scanFlag U true rs
    else if U.isNop r then scanFlag U flag rs
    else if flag then scanFlag U false rs
    else scanFlag U flag rs

/-- A lower-case ASCII letter or an ASCII digit. -/
def isLowerAlnum (c : Char) : Bool :=
  (0x0030 ≤ c.toNat && c.toNat ≤ 0x0039) || (0x0061 ≤ c.toNat && c.toNat ≤ 0x007A)

/-- The shape of a slug under construction: lower-case letters and digits, with
single separators that are allowed only where `sep` says so at the front and
after a letter or digit further on. -/
def slugShape : Bool → List Char → Bool
  | _, [] => true
  | sep, c :: cs =>
    if isLowerAlnum c then slugShape true cs
    else decide (c = Replacement) && sep && slugShape false cs

/-- NFKD leaves ASCII text as it is. -/
def NfkdFixesAscii (U : UnicodeLib) : Prop :=
  ∀ t : String, (∀ c ∈ t.data, c.toNat < 0x80) → U.nfkd t = t.data

/-! ## The outside world -/

/-- A non-nil Go `error`. -/
structure GoError where
  msg : String
deriving DecidableEq, Repr

/-- The fields of `*http.Response` the program reads. -/
structure Response where
  StatusCode : Nat
  Status : String
  Body : String
deriving DecidableEq, Repr

/-- The inner struct `Title` of `Station`. -/
structure StationTitle where
  Rendered : String
deriving DecidableEq, Repr

/-- The inner struct `Meta` of `Station`. -/
structure StationMeta where
  Stream : String
deriving DecidableEq, Repr

/-- Models `type Station struct`. -/
structure Station where
  Title : StationTitle
  Meta : StationMeta
deriving DecidableEq, Repr

/-- Models `feeds.Link`, as far as set. -/
structure Link where
  Href : String
deriving DecidableEq, Repr

/-- Models `feeds.Author`, as far as set. -/
structure Author where
  Name : String
deriving DecidableEq, Repr

/-- Models `feeds.Image`, as far as set. -/
structure Image where
  Url : String
deriving DecidableEq, Repr

/-- Models `feeds.Enclosure`; `Type_` is its field `Type`. -/
structure Enclosure where
  Url : String
  Type_ : String
  Length : String
deriving DecidableEq, Repr

/-- Models `feeds.Item`, as far as set.  `Created` is a `time.Time`, here an instant in
nanoseconds on an unbounded axis. -/
structure Item where
  Title : String
  Link : Link
  Enclosure : Enclosure
  Description : String
  Created : Int
deriving DecidableEq, Repr

/-- Models `feeds.Feed`, as far as set.  A nil pointer is `none`. -/
structure Feed where
  Title : String
  Link : Link
  Description : String
  Language : String
  Author : Option Author
  Image : Option Image
  Items : List Item
deriving DecidableEq, Repr

/-- What the program calls outside itself.  `Doc` is `*goquery.Document` and
`Sel` is `*goquery.Selection`.  Every call is a function of its arguments: a
URL answers the same way each time it is fetched. -/
structure World (Doc Sel : Type) where
  /-- Models `http.Get(url)`. -/
  Get : String → Except GoError Response
  /-- Models `goquery.NewDocumentFromReader(res.Body)`. -/
  NewDocumentFromReader : Response → Except GoError Doc
  /-- The selection a document embeds, on which `doc.Find` works. -/
  root : Doc → Sel
  /-- Models `s.Find(selector)`. -/
  Find : Sel → String → Sel
  /-- Models `s.Text()`. -/
  Text : Sel → String
  /-- The first result of `s.Attr(name)`: the value, `""` when there is none. -/
  Attr : Sel → String → String
  /-- The one-element selections `s.Each` hands to its callback, in order; the
  callback's index is the position in this list. -/
  Each : Sel → List Sel
  /-- Models `ioutil.ReadAll(res.Body)`. -/
  ReadAll : Response → Except GoError String
  /-- Models `json.Unmarshal(body, &station)` on a zero `station`: the station
  afterwards, and the error returned. -/
  Unmarshal : String → Station × Option GoError
  /-- Models `strings.TrimSpace`. -/
  TrimSpace : String → String
  /-- The reading of `time.Now()` taken in the callback of index `i`. -/
  Now : Nat → Int
  /-- Models `feed.ToRss()`. -/
  ToRss : Feed → Except GoError String
  /-- The error of `os.Create(name)`. -/
  Create : String → Option GoError
  /-- The error of `f.WriteString(rss)` on the file created as `name`. -/
  WriteString : String → String → Option GoError
  /-- The Unicode library behind `Clean`. -/
  unicode : UnicodeLib

/-- A call into the file system. -/
inductive FsOp where
  | Create (name : String)
  | WriteString (name : String) (data : String)
deriving DecidableEq, Repr

/-- What a feed builder leaves behind: the error it returns, the value of its
local `feed` at the return, and the file-system calls it made, in order. -/
structure Outcome where
  err : Option GoError
  feed : Feed
  fs : List FsOp
deriving DecidableEq, Repr

/-! ## Catalog lister -/

/-- Models `maxpg := 277`. -/
def maxpg : Nat := 277

/-- Models `fmt.Sprintf(allbooksurl+"/page/%d", pg)`, for an `allbooksurl` without a
percent sign (the one of `main` has none). -/
def pageUrl (allbooksurl : String) (pg : Nat) : String :=
  allbooksurl ++ "/page/" ++ toString pg

/-- The appends of
`doc.Find("article header h3.entry-title a").Each(...)`: the `href` of each
anchor, `""` where it has none. -/
def pageHrefs {Doc Sel : Type} (W : World Doc Sel) (doc : Doc) : List String :=
  (W.Each (W.Find (W.root doc) "article header h3.entry-title a")).map
    (fun s => W.Attr s "href")

/-- The loop of `GetBookUrls` over the page numbers still to visit.  The `err`
returned inside the loop is the one declared by `res, err := http.Get(...)`;
after the loop it is the named result, which nothing has assigned. -/
def getBookUrlsLoop {Doc Sel : Type} (W : World Doc Sel) (allbooksurl : String) :
    List Nat → List String → List String × Option GoError
  | [], bookurls => (bookurls, none)
  | pg :: rest, bookurls =>
    let booksurl := pageUrl allbooksurl pg
    match W.Get booksurl with
    | .error err => (bookurls, some err)
    | .ok res =>
      let err : Option GoError := none
      if res.StatusCode ≠ 200 then
        (bookurls, err)
      else
        match W.NewDocumentFromReader res with
        | .error err => (bookurls, some err)
        | .ok doc => getBookUrlsLoop W allbooksurl rest (bookurls ++ pageHrefs W doc)

/-- Models `func GetBookUrls(allbooksurl string) (bookurls []string, err error)`:
`for pg := 1; pg < maxpg; pg++`. -/
def GetBookUrls {Doc Sel : Type} (W : World Doc Sel) (allbooksurl : String) :
    List String × Option GoError :=
  getBookUrlsLoop W allbooksurl (List.range' 1 (maxpg - 1)) []

/-! ## Feed builder -/

/-- Two's-complement wrap-around to 64 bits. -/
def wrapInt64 (x : Int) : Int :=
  (x + 2 ^ 63) % 2 ^ 64 - 2 ^ 63

/-- Models `time.Hour`, in nanoseconds. -/
def Hour : Int := 3600000000000

/-- Models `time.Duration(24*i) * time.Hour`, an `int64` count of nanoseconds (with
`int` 64 bits wide). -/
def dayOffset (i : Nat) : Int :=
  wrapInt64 (wrapInt64 (24 * (i : Int)) * Hour)

/-- Models `time.Now().Add(time.Duration(24*i) * time.Hour)` in the callback of
index `i`. -/
def created {Doc Sel : Type} (W : World Doc Sel) (i : Nat) : Int :=
  W.Now i + dayOffset i

/-- The `&feeds.Item{...}` literal both builders fill in. -/
def mkItem {Doc Sel : Type} (W : World Doc Sel) (i : Nat) (name url : String) : Item :=
  { Title := name
    Link := { Href := url }
    Enclosure := { Url := url, Type_ := "audio/mpeg", Length := "1000000" }
    Description := name
    Created := created W i }

/-- Models `selection.Each(func(i int, s *goquery.Selection) {...})` for a callback
that updates `feed`. -/
def eachFrom {Sel : Type} (f : Feed → Nat → Sel → Feed) : Nat → List Sel → Feed → Feed
  | _, [], feed => feed
  | i, s :: ss, feed => eachFrom f (i + 1) ss (f feed i s)

/-- The address of the secondary fetch:
`fmt.Sprintf(".../wp/v2/station/%s?_fields=...", id)`. -/
def stationUrl (id : String) : String :=
  "https://www.litteratureaudio.com/wp-json/wp/v2/station/" ++ id ++
    "?_fields=title,meta.stream,media.download_url"

/-- The callback of `CreateFeedFromAPI`.  The result of `json.Unmarshal` is
not looked at. -/
def apiChapter {Doc Sel : Type} (W : World Doc Sel) (feed : Feed) (i : Nat) (s : Sel) :
    Feed :=
  let id := W.Attr s "data-play-id"
  match W.Get (stationUrl id) with
  | .error _ => feed
  | .ok res =>
    if res.StatusCode ≠ 200 then
      feed
    else
      match W.ReadAll res with
      | .error _ => feed
      | .ok body =>
        let station := (W.Unmarshal body).1
        let name := station.Title.Rendered
        let url := station.Meta.Stream
        { feed with Items := feed.Items ++ [mkItem W i name url] }

/-- The callback of `CreateFeedFromPage`. -/
def pageChapter {Doc Sel : Type} (W : World Doc Sel) (feed : Feed) (i : Nat) (s : Sel) :
    Feed :=
  let name := W.Text (W.Find s ".entry-header .entry-title")
  let url := W.Attr (W.Find s ".entry-footer a.no-ajax") "href"
  { feed with Items := feed.Items ++ [mkItem W i name url] }

/-- Models `func CreateFeedFromAPI(bookurl string) (err error)`. -/
def CreateFeedFromAPI {Doc Sel : Type} (W : World Doc Sel) (bookurl : String) : Outcome :=
  let feed : Feed :=
    { Title := "", Link := { Href := bookurl }, Description := "", Language := "",
      Author := none, Image := none, Items := [] }
  match W.Get bookurl with
  | .error err => { err := some err, feed := feed, fs := [] }
  | .ok res =>
    let err : Option GoError := none
    if res.StatusCode ≠ 200 then
      { err := err, feed := feed, fs := [] }
    else
      match W.NewDocumentFromReader res with
      | .error err => { err := some err, feed := feed, fs := [] }
      | .ok doc =>
        let title := W.TrimSpace (W.Text (W.Find (W.root doc)
          "article.post .header-station > .entry-header h1.entry-title"))
        let author := W.TrimSpace (W.Text (W.Find (W.root doc)
          "article.post .header-station > .entry-header .entry-auteur a"))
        let feed := { feed with
          Title := title, Description := title, Language := "fr",
          Author := some { Name := author } }
        let filename := Clean W.unicode (author ++ " " ++ title)
        if filename = "" then
          { err := some { msg := "[ERROR] " ++ bookurl ++ " has no title" },
            feed := feed, fs := [] }
        else
          let coverurl := W.Attr (W.Find (W.root doc)
            "article.post .header-station .post-thumbnail img") "src"
          let feed := if coverurl ≠ "" then { feed with Image := some { Url := coverurl } }
            else feed
          let feed := eachFrom (apiChapter W) 0
            (W.Each (W.Find (W.root doc) "article.album-track")) feed
          match W.ToRss feed with
          | .error err => { err := some err, feed := feed, fs := [] }
          | .ok rss =>
            match W.Create (filename ++ ".rss") with
            | some err => { err := some err, feed := feed, fs := [FsOp.Create (filename ++ ".rss")] }
            | none =>
              { err := W.WriteString (filename ++ ".rss") rss, feed := feed,
                fs := [FsOp.Create (filename ++ ".rss"),
                  FsOp.WriteString (filename ++ ".rss") rss] }

/-- Models `func CreateFeedFromPage(bookurl string) (err error)`. -/
def CreateFeedFromPage {Doc Sel : Type} (W : World Doc Sel) (bookurl : String) : Outcome :=
  let feed : Feed :=
    { Title := "", Link := { Href := bookurl }, Description := "", Language := "",
      Author := none, Image := none, Items := [] }
  match W.Get bookurl with
  | .error err => { err := some err, feed := feed, fs := [] }
  | .ok res =>
    let err : Option GoError := none
    if res.StatusCode ≠ 200 then
      { err := err, feed := feed, fs := [] }
    else
      match W.NewDocumentFromReader res with
      | .error err => { err := some err, feed := feed, fs := [] }
      | .ok doc =>
        let title := W.TrimSpace (W.Text (W.Find (W.root doc)
          "article.post .header-station > .entry-header h1.entry-title"))
        let author := W.TrimSpace (W.Text (W.Find (W.root doc)
          "article.post .header-station > .entry-header .entry-auteur a"))
        let feed := { feed with
          Title := title, Description := title, Language := "fr",
          Author := some { Name := author } }
        let filename := Clean W.unicode (author ++ " " ++ title)
        if filename = "" then
          { err := some { msg := "[ERROR] " ++ bookurl ++ " has no title" },
            feed := feed, fs := [] }
        else
          let coverurl := W.Attr (W.Find (W.root doc)
            "article.post .header-station .post-thumbnail img") "src"
          let feed := if coverurl ≠ "" then { feed with Image := some { Url := coverurl } }
            else feed
          let feed := eachFrom (pageChapter W) 0
            (W.Each (W.Find (W.root doc) "article.album-track")) feed
          match W.ToRss feed with
          | .error err => { err := some err, feed := feed, fs := [] }
          | .ok rss =>
            match W.Create (filename ++ ".rss") with
            | some err => { err := some err, feed := feed, fs := [FsOp.Create (filename ++ ".rss")] }
            | none =>
              { err := W.WriteString (filename ++ ".rss") rss, feed := feed,
                fs := [FsOp.Create (filename ++ ".rss"),
                  FsOp.WriteString (filename ++ ".rss") rss] }

/-! ### The feed items, read off the chapter list -/

/-- The items `CreateFeedFromPage` appends for the chapters `ss`, the first of
which has index `k`. -/
def pageItemsFrom {Doc Sel : Type} (W : World Doc Sel) : Nat → List Sel → List Item
  | _, [] => []
  | k, s :: ss =>
    mkItem W k (W.Text (W.Find s ".entry-header .entry-title"))
        (W.Attr (W.Find s ".entry-footer a.no-ajax") "href")
      :: pageItemsFrom W (k + 1) ss

/-- The secondary fetch of chapter `s` went through: the fetch answered, with
status 200, and the body could be read. -/
def fetchedBody {Doc Sel : Type} (W : World Doc Sel) (s : Sel) : Option String :=
  match W.Get (stationUrl (W.Attr s "data-play-id")) with
  | .error _ => none
  | .ok res =>
    if res.StatusCode ≠ 200 then none
    else
      match W.ReadAll res with
      | .error _ => none
      | .ok body => some body

/-- The items `CreateFeedFromAPI` appends for the chapters `ss`, the first of
which has index `k`, when every secondary fetch goes through. -/
def apiItemsFrom {Doc Sel : Type} (W : World Doc Sel) : Nat → List Sel → List Item
  | _, [] => []
  | k, s :: ss =>
    match fetchedBody W s with
    | none => apiItemsFrom W (k + 1) ss
    | some body =>
      mkItem W k (W.Unmarshal body).1.Title.Rendered (W.Unmarshal body).1.Meta.Stream
        :: apiItemsFrom W (k + 1) ss

/-- The detail page at `bookurl` is fetched with status 200, parses to `doc`,
and its author and title give a non-empty file name. -/
def DetailPage {Doc Sel : Type} (W : World Doc Sel) (bookurl : String) (doc : Doc) : Prop :=
  ∃ res, W.Get bookurl = .ok res ∧ res.StatusCode = 200 ∧
    W.NewDocumentFromReader res = .ok doc ∧
    Clean W.unicode
      (W.TrimSpace (W.Text (W.Find (W.root doc)
          "article.post .header-station > .entry-header .entry-auteur a")) ++ " " ++
        W.TrimSpace (W.Text (W.Find (W.root doc)
          "article.post .header-station > .entry-header h1.entry-title"))) ≠ ""

/-- The chapters of a detail page, in document order. -/
def chapters {Doc Sel : Type} (W : World Doc Sel) (doc : Doc) : List Sel :=
  W.Each (W.Find (W.root doc) "article.album-track")

/-- The largest number of chapters whose day offsets fit in an `int64` count of
nanoseconds: `106752 * 24h` is the first to exceed `2^63 - 1` ns. -/
def maxChapters : Nat := 106752

/-! ### A sample site, for evaluating the lister and the builders -/

/-- A chapter of a sample page. -/
structure SampleTrack where
  playId : String
  title : String
  href : String
deriving DecidableEq, Repr

/-- A page of the sample site: the anchors of a listing page, or the header and
chapters of a detail page. -/
structure SamplePage where
  anchors : List String
  title : String
  author : String
  cover : String
  tracks : List SampleTrack
deriving DecidableEq, Repr

/-- Selections on a sample page: what `Find` reached from the page or from a
chapter (`""` is the page, the chapter, itself), or a listing anchor. -/
inductive SampleSel where
  | inPage (p : SamplePage) (selector : String)
  | inTrack (t : SampleTrack) (selector : String)
  | anchor (href : String)
deriving DecidableEq, Repr

/-- Models `Find` on the sample site. -/
def sampleFind : SampleSel → String → SampleSel
  | .inPage p _, q => .inPage p q
  | .inTrack t _, q => .inTrack t q
  | .anchor h, _ => .anchor h

/-- Models `Text` on the sample site. -/
def sampleText : SampleSel → String
  | .inPage p q =>
    if q = "article.post .header-station > .entry-header h1.entry-title" then p.title
    else if q = "article.post .header-station > .entry-header .entry-auteur a" then p.author
    else ""
  | .inTrack t q => if q = ".entry-header .entry-title" then t.title else ""
  | .anchor _ => ""

/-- Models `Attr` on the sample site. -/
def sampleAttr : SampleSel → String → String
  | .inPage p q, name =>
    if q = "article.post .header-station .post-thumbnail img" ∧ name = "src" then p.cover
    else ""
  | .inTrack t q, name =>
    if q = "" ∧ name = "data-play-id" then t.playId
    else if q = ".entry-footer a.no-ajax" ∧ name = "href" then t.href
    else ""
  | .anchor h, name => if name = "href" then h else ""

/-- Models `Each` on the sample site. -/
def sampleEach : SampleSel → List SampleSel
  | .inPage p q =>
    if q = "article header h3.entry-title a" then p.anchors.map SampleSel.anchor
    else if q = "article.album-track" then p.tracks.map (fun t => SampleSel.inTrack t "")
    else []
  | _ => []

/-- The page without content. -/
def emptyPage : SamplePage :=
  { anchors := [], title := "", author := "", cover := "", tracks := [] }

/-- The pages of the sample site, by response body. -/
def samplePages : String → SamplePage
  | "listing-1" => { emptyPage with anchors := ["/b1", "/b2"] }
  | "listing-2" => { emptyPage with anchors := ["/b3", "/b4"] }
  | "horla" =>
    { emptyPage with
      title := "  Le Horla ", author := "Maupassant", cover := "/horla.jpg",
      tracks := [⟨"11", "Chapitre 1", "/1.mp3"⟩, ⟨"12", "Chapitre 2", "/2.mp3"⟩,
        ⟨"13", "Chapitre 3", "/3.mp3"⟩] }
  | "conte" =>
    { emptyPage with
      title := "Conte", author := "Anonyme",
      tracks := [⟨"11", "Partie 1", "/a.mp3"⟩, ⟨"11", "Partie 2", "/b.mp3"⟩] }
  | "untitled" => { emptyPage with title := "  ", author := "", tracks := [⟨"11", "x", "/x"⟩] }
  | _ => emptyPage

/-- The answers of the sample site.  Page 3 of the listing answers 500; the
station of chapter 12 answers text that is not JSON; the station of chapter 13
answers 404. -/
def sampleGet (url : String) : Except GoError Response :=
  if url = "http://site/all/page/1" then .ok ⟨200, "200 OK", "listing-1"⟩
  else if url = "http://site/all/page/2" then .ok ⟨200, "200 OK", "listing-2"⟩
  else if url = "http://site/all/page/3" then .ok ⟨500, "500 Internal Server Error", ""⟩
  else if url = "http://site/horla" then .ok ⟨200, "200 OK", "horla"⟩
  else if url = "http://site/conte" then .ok ⟨200, "200 OK", "conte"⟩
  else if url = "http://site/untitled" then .ok ⟨200, "200 OK", "untitled"⟩
  else if url = "http://site/gone" then .ok ⟨404, "404 Not Found", ""⟩
  else if url = stationUrl "11" then .ok ⟨200, "200 OK", "station-11"⟩
  else if url = stationUrl "12" then .ok ⟨200, "200 OK", "<html>not json</html>"⟩
  else if url = stationUrl "13" then .ok ⟨404, "404 Not Found", ""⟩
  else .error ⟨"no such host"⟩

/-- The JSON decoder on the bodies of the sample site: the body of station 11
decodes; any other body is not JSON and leaves the station as it was. -/
def sampleUnmarshal (body : String) : Station × Option GoError :=
  if body = "station-11" then (⟨⟨"Chapitre 1"⟩, ⟨"http://site/1.mp3"⟩⟩, none)
  else (⟨⟨""⟩, ⟨""⟩⟩, some ⟨"invalid character"⟩)

/-- Models `strings.TrimSpace` on ASCII text: leading and trailing blanks, tabs and
line ends are cut off. -/
def sampleTrim (s : String) : String :=
  String.mk ((s.data.dropWhile Char.isWhitespace).reverse.dropWhile Char.isWhitespace).reverse

/-- The sample site as a `World`: the clock advances one second per chapter,
the encoder and the file system do not fail. -/
def sampleWorld : World SamplePage SampleSel where
  Get := sampleGet
  NewDocumentFromReader := fun res => .ok (samplePages res.Body)
  root := fun p => .inPage p ""
  Find := sampleFind
  Text := sampleText
  Attr := sampleAttr
  Each := sampleEach
  ReadAll := fun res => .ok res.Body
  Unmarshal := sampleUnmarshal
  TrimSpace := sampleTrim
  Now := fun i => 1000000000 * i
  ToRss := fun feed => .ok (feed.Title ++ "/" ++ toString feed.Items.length)
  Create := fun _ => none
  WriteString := fun _ _ => none
  unicode := fragmentLib

/-- A site whose only detail page has `n` chapters, with a clock that stands
still. -/
def longWorld (n : Nat) : World Unit Unit where
  Get := fun _ => .ok ⟨200, "200 OK", ""⟩
  NewDocumentFromReader := fun _ => .ok ()
  root := fun _ => ()
  Find := fun _ _ => ()
  Text := fun _ => "a"
  Attr := fun _ _ => ""
  Each := fun _ => List.replicate n ()
  ReadAll := fun res => .ok res.Body
  Unmarshal := fun _ => (⟨⟨""⟩, ⟨""⟩⟩, none)
  TrimSpace := fun s => s
  Now := fun _ => 0
  ToRss := fun _ => .ok ""
  Create := fun _ => none
  WriteString := fun _ _ => none
  unicode := fragmentLib

/-! ## Harvest coordinator

`main` starts `P` workers (`CreateFeedRoutine`), one dispatch goroutine, and
then receives `len(bookurls)` times from `donechan`.  Both channels are
unbuffered, so a send and the matching receive are one step.  The goroutines
are interleaved one step at a time, in any order. -/

/-- Where a worker stands in the loop of `CreateFeedRoutine`. -/
inductive WorkerState where
  /-- Blocked in `bookurl, more := <-in`. -/
  | receiving
  /-- Has received `bookurl` with `more = true`; `CreateFeedFromAPI(bookurl)` is next. -/
  | working (bookurl : String)
  /-- After `CreateFeedFromAPI`; blocked in `out <- bookurl`. -/
  | sending (bookurl : String)
  /-- Has received `more = false` and executed `return`. -/
  | returned
deriving DecidableEq, Repr

/-- The state of the whole pool. -/
structure PoolState where
  /-- The part of `bookurls` the dispatch goroutine has not sent yet. -/
  pending : List String
  /-- Whether `close(bookchan)` has been executed. -/
  closed : Bool
  /-- The workers, in the order `main` launched them. -/
  workers : List WorkerState
  /-- The calls of `CreateFeedFromAPI` made so far: worker and address. -/
  processed : List (Nat × String)
  /-- The errors logged by the workers. -/
  errors : List GoError
  /-- The values `main` has received from `donechan`, one per iteration of
  `for b := range bookurls`. -/
  received : List String
  /-- The value of `len(bookurls)`. -/
  total : Nat
deriving DecidableEq, Repr

/-- A step of one goroutine, or of two that meet on a channel. -/
inductive Action where
  /-- The send `bookchan <- bookurl` in the dispatcher meets `<-in` in worker `w`. -/
  | send (w : Nat)
  /-- The call `close(bookchan)`, after the dispatcher's loop. -/
  | close
  /-- Worker `w` runs `CreateFeedFromAPI(bookurl)` and logs its error, if any. -/
  | work (w : Nat)
  /-- The send `out <- bookurl` in worker `w` meets `<-donechan` in `main`. -/
  | report (w : Nat)
  /-- Worker `w` receives from the closed channel and returns. -/
  | ret (w : Nat)
deriving DecidableEq, Repr

/-- The loop of `main` has received `len(bookurls)` signals: `main` returns and
the process ends. -/
def finished (s : PoolState) : Bool :=
  s.received.length == s.total

/-- The state after `main` has launched `P` workers and the dispatcher. -/
def start (bookurls : List String) (P : Nat) : PoolState :=
  { pending := bookurls, closed := false, workers := List.replicate P WorkerState.receiving,
    processed := [], errors := [], received := [], total := bookurls.length }

/-- One step; `none` when the action is not enabled in `s`. -/
def step {Doc Sel : Type} (W : World Doc Sel) (a : Action) (s : PoolState) : Option PoolState :=
  if finished s then none
  else
    match a with
    | .send w =>
      match s.pending, s.workers[w]? with
      | u :: rest, some .receiving =>
        some { s with pending := rest, workers := s.workers.set w (.working u) }
      | _, _ => none
    | .close =>
      if s.pending = [] ∧ s.closed = false then some { s with closed := true } else none
    | .work w =>
      match s.workers[w]? with
      | some (.working u) =>
        some { s with
          workers := s.workers.set w (.sending u)
          processed := s.processed ++ [(w, u)]
          errors := s.errors ++ (CreateFeedFromAPI W u).err.toList }
      | _ => none
    | .report w =>
      match s.workers[w]? with
      | some (.sending u) =>
        some { s with workers := s.workers.set w .receiving, received := s.received ++ [u] }
      | _ => none
    | .ret w =>
      match s.workers[w]? with
      | some .receiving =>
        if s.closed then some { s with workers := s.workers.set w .returned } else none
      | _ => none

/-- A run: the actions of a schedule, one after the other; `none` when one of
them is not enabled. -/
def run {Doc Sel : Type} (W : World Doc Sel) : List Action → PoolState → Option PoolState
  | [], s => some s
  | a :: as, s => (step W a s).bind (run W as)

/-! ### Bookkeeping for the coordinator proofs -/

/-- The address a worker holds before `CreateFeedFromAPI`. -/
def workingM : WorkerState → Multiset String
  | .working u => {u}
  | _ => 0

/-- The address a worker holds after `CreateFeedFromAPI`. -/
def sendingM : WorkerState → Multiset String
  | .sending u => {u}
  | _ => 0

/-- The number of steps a worker has left at most, not counting new work. -/
def rank : WorkerState → Nat
  | .receiving => 1
  | .working _ => 3
  | .sending _ => 2
  | .returned => 0

/-- The number of steps the pool has left at most. -/
def stepsLeft (s : PoolState) : Nat :=
  3 * s.pending.length + (if s.closed then 0 else 1) + (s.workers.map rank).sum

/-- What holds of every state a run from `start bookurls P` reaches. -/
structure Reachable (bookurls : List String) (P : Nat) (s : PoolState) : Prop where
  total_eq : s.total = bookurls.length
  workers_length : s.workers.length = P
  urls : (bookurls : Multiset String) =
    (s.received : Multiset String) + (s.workers.map workingM).sum +
      (s.workers.map sendingM).sum + (s.pending : Multiset String)
  processed_eq : ((s.processed.map Prod.snd : List String) : Multiset String) =
    (s.received : Multiset String) + (s.workers.map sendingM).sum
  closed_pending : s.closed = true → s.pending = []
  open_workers : s.closed = false → ∀ w ∈ s.workers, w ≠ WorkerState.returned

/-! ## Theorems: slug normaliser -/

theorem toNat_ofNat_small (n : Nat) (h : n < 0xD800) : (Char.ofNat n).toNat = n := by
  have hv : n.isValidChar := Or.inl h
  simp only [Char.ofNat, hv, dite_true]
  simp [Char.ofNatAux, Char.toNat, UInt32.toNat]

theorem isLowerAlnum_toLower {r : Char} (h : alphanum r = true) :
    isLowerAlnum (toLower r) = true := by
  unfold toLower
  split
  · rename_i hu
    have : (Char.ofNat (r.toNat + 0x20)).toNat = r.toNat + 0x20 :=
      toNat_ofNat_small _ (by omega)
    simp only [isLowerAlnum, this, Bool.or_eq_true, Bool.and_eq_true, decide_eq_true_eq]
    omega
  · rename_i hu
    simp only [alphanum, Bool.or_eq_true, Bool.and_eq_true, decide_eq_true_eq] at h
    simp only [isLowerAlnum, Bool.or_eq_true, Bool.and_eq_true, decide_eq_true_eq]
    omega

theorem alphanum_of_isLowerAlnum {c : Char} (h : isLowerAlnum c = true) :
    alphanum c = true := by
  simp only [isLowerAlnum, Bool.or_eq_true, Bool.and_eq_true, decide_eq_true_eq] at h
  simp only [alphanum, Bool.or_eq_true, Bool.and_eq_true, decide_eq_true_eq]
  omega

theorem toLower_of_isLowerAlnum {c : Char} (h : isLowerAlnum c = true) :
    toLower c = c := by
  simp only [isLowerAlnum, Bool.or_eq_true, Bool.and_eq_true, decide_eq_true_eq] at h
  unfold toLower
  rw [if_neg]
  omega

theorem isLowerAlnum_ne_replacement {c : Char} (h : isLowerAlnum c = true) :
    c ≠ Replacement := by
  intro hc
  rw [hc] at h
  revert h
  decide

theorem alphanum_replacement : alphanum Replacement = false := by decide

theorem isLowerAlnum_lt {c : Char} (h : isLowerAlnum c = true) : c.toNat < 0x80 := by
  simp only [isLowerAlnum, Bool.or_eq_true, Bool.and_eq_true, decide_eq_true_eq] at h
  omega

/-- The loop and its front-recursive reading agree on `buf`. -/
theorem foldl_scanStep_buf (U : UnicodeLib) (rs : List Char) (st : ScanState) :
    (rs.foldl (scanStep U) st).buf = st.buf ++ scanOut U st.replacement rs := by
  induction rs generalizing st with
  | nil => simp [scanOut]
  | cons r rs ih =>
    rw [List.foldl_cons, ih]
    unfold scanStep
    by_cases h1 : alphanum r = true
    · simp [scanOut, h1]
    · by_cases h2 : U.isNop r = true
      · simp [scanOut, h1, h2]
      · by_cases h3 : st.replacement = true
        · simp [scanOut, h1, h2, h3]
        · simp [scanOut, h1, h2, h3]

theorem scan_buf (U : UnicodeLib) (rs : List Char) :
    (scan U rs).buf = scanOut U false rs := by
  simp [scan, foldl_scanStep_buf]

theorem slugShape_scanOut (U : UnicodeLib) (rs : List Char) (flag : Bool) :
    slugShape flag (scanOut U flag rs) = true := by
  induction rs generalizing flag with
  | nil => simp [scanOut, slugShape]
  | cons r rs ih =>
    unfold scanOut
    by_cases h1 : alphanum r = true
    · simp [h1, slugShape, isLowerAlnum_toLower h1, ih]
    · by_cases h2 : U.isNop r = true
      · simp [h1, h2, ih]
      · by_cases h3 : flag = true
        · subst h3
          have : isLowerAlnum Replacement = false := by decide
          simp [h1, h2, slugShape, this, ih]
        · simp [h1, h2, h3, ih]

theorem slugShape_mem {l : List Char} {sep : Bool} (h : slugShape sep l = true) :
    ∀ c ∈ l, c.toNat < 0x80 := by
  induction l generalizing sep with
  | nil => simp
  | cons a l ih =>
    intro c hc
    unfold slugShape at h
    by_cases ha : isLowerAlnum a = true
    · simp only [ha, if_true] at h
      rcases List.mem_cons.mp hc with rfl | hc
      · exact isLowerAlnum_lt ha
      · exact ih h c hc
    · simp only [ha, Bool.false_eq_true, if_false, Bool.and_eq_true, decide_eq_true_eq] at h
      rcases List.mem_cons.mp hc with rfl | hc
      · rw [h.1.1]; decide
      · exact ih h.2 c hc

theorem slugShape_head {l : List Char} (h : slugShape false l = true) :
    l.head? ≠ some Replacement := by
  cases l with
  | nil => simp
  | cons c cs =>
    unfold slugShape at h
    by_cases hc : isLowerAlnum c = true
    · simp only [List.head?_cons, ne_eq, Option.some.injEq]
      exact isLowerAlnum_ne_replacement hc
    · simp [hc] at h

theorem stripTrailing_of_getLast {l : List Char} (h : l.getLast? ≠ some Replacement) :
    stripTrailing l = l := by
  unfold stripTrailing
  split
  · rename_i c hc
    by_cases hcr : c = Replacement
    · exact absurd (hcr ▸ hc) h
    · simp [hcr]
  · rfl

theorem stripTrailing_append {xs ys : List Char} (hys : ys ≠ []) :
    stripTrailing (xs ++ ys) = xs ++ stripTrailing ys := by
  unfold stripTrailing
  rw [List.getLast?_append_of_ne_nil xs hys]
  split
  · split
    · rw [List.dropLast_append_of_ne_nil xs hys]
    · rfl
  · rfl

theorem slugShape_stripTrailing {l : List Char} {sep : Bool} (h : slugShape sep l = true) :
    slugShape sep (stripTrailing l) = true ∧
      (stripTrailing l).getLast? ≠ some Replacement := by
  induction l generalizing sep with
  | nil => simp [stripTrailing, slugShape]
  | cons c cs ih =>
    cases cs with
    | nil =>
      by_cases hc : c = Replacement
      · subst hc
        simp [stripTrailing, slugShape]
      · have : stripTrailing [c] = [c] :=
          stripTrailing_of_getLast (by simpa using hc)
        rw [this]
        exact ⟨h, by simpa using hc⟩
    | cons d ds =>
      have happ : stripTrailing (c :: d :: ds) = c :: stripTrailing (d :: ds) := by
        have := @stripTrailing_append [c] (d :: ds) (by simp)
        simpa using this
      rw [happ]
      unfold slugShape at h ⊢
      by_cases hc : isLowerAlnum c = true
      · simp only [hc, if_true] at h ⊢
        refine ⟨(ih h).1, ?_⟩
        cases hs : stripTrailing (d :: ds) with
        | nil => simpa using isLowerAlnum_ne_replacement hc
        | cons e es =>
          have := (ih h).2
          rw [hs] at this
          simpa using this
      · simp only [hc, Bool.false_eq_true, if_false, Bool.and_eq_true,
          decide_eq_true_eq] at h ⊢
        refine ⟨⟨h.1, (ih h.2).1⟩, ?_⟩
        cases hs : stripTrailing (d :: ds) with
        | nil =>
          exfalso
          have hd : d :: ds = [Replacement] := by
            unfold stripTrailing at hs
            split at hs
            · rename_i e he
              split at hs
              · rename_i her
                have hdl := List.dropLast_append_getLast? e he
                rw [hs] at hdl
                simpa [her] using hdl.symm
              · cases hs
            · cases hs
          rw [hd] at h
          have := h.2
          simp [slugShape] at this
          revert this
          decide
        | cons e es =>
          have := (ih h.2).2
          rw [hs] at this
          simpa using this

theorem scanOut_of_slugShape (U : UnicodeLib) (hsep : U.isNop Replacement = false)
    {l : List Char} {flag : Bool} (h : slugShape flag l = true) :
    scanOut U flag l = l := by
  induction l generalizing flag with
  | nil => rfl
  | cons c cs ih =>
    unfold slugShape at h
    unfold scanOut
    by_cases hc : isLowerAlnum c = true
    · simp only [hc, if_true] at h
      simp [alphanum_of_isLowerAlnum hc, toLower_of_isLowerAlnum hc, ih h]
    · simp only [hc, Bool.false_eq_true, if_false, Bool.and_eq_true,
        decide_eq_true_eq] at h
      obtain ⟨⟨hcr, hflag⟩, hcs⟩ := h
      subst hcr
      simp [alphanum_replacement, hsep, hflag, ih hcs]

theorem scanOut_false_of_no_alphanum (U : UnicodeLib) {rs : List Char}
    (h : ∀ c ∈ rs, alphanum c = false) : scanOut U false rs = [] := by
  induction rs with
  | nil => rfl
  | cons r rs ih =>
    have hr : alphanum r = false := h r (List.mem_cons_self _ _)
    have hrs := ih (fun c hc => h c (List.mem_cons_of_mem _ hc))
    unfold scanOut
    by_cases h2 : U.isNop r = true
    · simp [hr, h2, hrs]
    · simp [hr, h2, hrs]

theorem cleanRunes_shape (U : UnicodeLib) (rs : List Char) :
    slugShape false (cleanRunes U rs) = true ∧
      (cleanRunes U rs).getLast? ≠ some Replacement := by
  unfold cleanRunes
  rw [scan_buf]
  exact slugShape_stripTrailing (slugShape_scanOut U rs false)

/-- C1. `Clean` is idempotent: `Clean(Clean(s)) = Clean(s)` for every string
`s`, for a normaliser that leaves ASCII text as it is and tables in which the
separator `_` is not an ignored code point. -/
theorem Clean_idempotent (U : UnicodeLib) (hfix : NfkdFixesAscii U)
    (hsep : U.isNop Replacement = false) (s : String) :
    Clean U (Clean U s) = Clean U s := by
  have hshape := cleanRunes_shape U (U.nfkd s)
  have hnfkd : U.nfkd (Clean U s) = cleanRunes U (U.nfkd s) :=
    hfix (Clean U s) (slugShape_mem hshape.1)
  show String.mk (cleanRunes U (U.nfkd (Clean U s))) = String.mk (cleanRunes U (U.nfkd s))
  rw [hnfkd]
  congr 1
  show stripTrailing (scan U (cleanRunes U (U.nfkd s))).buf = cleanRunes U (U.nfkd s)
  rw [scan_buf, scanOut_of_slugShape U hsep hshape.1]
  exact stripTrailing_of_getLast hshape.2

/-- C3. For every string `s`, the output of `Clean(s)` neither begins nor ends
with the separator character `_`. -/
theorem Clean_no_leading_trailing_separator (U : UnicodeLib) (s : String) :
    (Clean U s).data.head? ≠ some Replacement ∧
      (Clean U s).data.getLast? ≠ some Replacement := by
  have hshape := cleanRunes_shape U (U.nfkd s)
  exact ⟨slugShape_head hshape.1, hshape.2⟩

/-- C4 (amended). For every input whose NFKD decomposition contains no ASCII
letter or digit (the empty string, a string of spaces, a string whose
decomposition consists of ignorable code points only), `Clean` returns the
empty string. -/
theorem Clean_empty_of_no_alphanum (U : UnicodeLib) (s : String)
    (h : ∀ c ∈ U.nfkd s, alphanum c = false) : Clean U s = "" := by
  show String.mk (stripTrailing (scan U (U.nfkd s)).buf) = ""
  rw [scan_buf, scanOut_false_of_no_alphanum U h]
  rfl

theorem decomposeChar_ascii {c : Char} (h : c.toNat < 0x80) : decomposeChar c = [c] := by
  unfold decomposeChar
  split <;> first | rfl | (rename_i heq; omega)

theorem fragmentLib_fixes_ascii : NfkdFixesAscii fragmentLib := by
  intro t ht
  show t.data.flatMap decomposeChar = t.data
  generalize t.data = l at ht
  induction l with
  | nil => rfl
  | cons c cs ih =>
    rw [List.flatMap_cons, decomposeChar_ascii (ht c (List.mem_cons_self _ _)),
      ih (fun d hd => ht d (List.mem_cons_of_mem _ hd))]
    rfl

/-- Witness of C1 on the table fragment, at `"  Hello,   World!  "`. -/
theorem Clean_idempotent_witness :
    NfkdFixesAscii fragmentLib ∧ fragmentLib.isNop Replacement = false ∧
      Clean fragmentLib "  Hello,   World!  " = "hello_world" ∧
      Clean fragmentLib (Clean fragmentLib "  Hello,   World!  ") =
        Clean fragmentLib "  Hello,   World!  " :=
  ⟨fragmentLib_fixes_ascii, by decide, by decide,
    Clean_idempotent fragmentLib fragmentLib_fixes_ascii (by decide) "  Hello,   World!  "⟩

/-- C4 fails as stated: U+02B0 MODIFIER LETTER SMALL H is in `Lm`, an ignored
class, and its compatibility decomposition is the letter `h`, so the
one-code-point input is all-ignorable and `Clean` returns `"h"`. -/
theorem Clean_all_ignorable_counterexample :
    (∀ c ∈ ("\u02B0" : String).data, fragmentLib.isNop c = true) ∧
      Clean fragmentLib "\u02B0" = "h" ∧ Clean fragmentLib "\u02B0" ≠ "" := by
  refine ⟨?_, ?_, ?_⟩ <;> decide

/-- Witness of C4 (amended): the spec's inputs `""` and `"   "`, and the
all-ignorable `"\u0301\u00AD"`. -/
theorem Clean_empty_of_no_alphanum_witness :
    (∀ c ∈ fragmentLib.nfkd "   ", alphanum c = false) ∧
      Clean fragmentLib "   " = "" ∧ Clean fragmentLib "" = "" ∧
      Clean fragmentLib "\u0301\u00AD" = "" :=
  ⟨by decide, Clean_empty_of_no_alphanum fragmentLib "   " (by decide),
    Clean_empty_of_no_alphanum fragmentLib "" (by decide),
    Clean_empty_of_no_alphanum fragmentLib "\u0301\u00AD" (by decide)⟩

theorem scanOut_append (U : UnicodeLib) (xs ys : List Char) (flag : Bool) :
    scanOut U flag (xs ++ ys) = scanOut U flag xs ++ scanOut U (scanFlag U flag xs) ys := by
  induction xs generalizing flag with
  | nil => rfl
  | cons r rs ih =>
    rw [List.cons_append]
    by_cases h1 : alphanum r = true
    · simp [scanOut, scanFlag, h1, ih]
    · by_cases h2 : U.isNop r = true
      · simp [scanOut, scanFlag, h1, h2, ih]
      · by_cases h3 : flag = true
        · simp [scanOut, scanFlag, h1, h2, h3, ih]
        · simp [scanOut, scanFlag, h1, h2, h3, ih]

theorem scanFlag_append (U : UnicodeLib) (xs ys : List Char) (flag : Bool) :
    scanFlag U flag (xs ++ ys) = scanFlag U (scanFlag U flag xs) ys := by
  induction xs generalizing flag with
  | nil => rfl
  | cons r rs ih =>
    rw [List.cons_append]
    by_cases h1 : alphanum r = true
    · simp [scanFlag, h1, ih]
    · by_cases h2 : U.isNop r = true
      · simp [scanFlag, h1, h2, ih]
      · by_cases h3 : flag = true
        · simp [scanFlag, h1, h2, h3, ih]
        · simp [scanFlag, h1, h2, h3, ih]

theorem scanFlag_false_of_no_alphanum (U : UnicodeLib) {rs : List Char}
    (h : ∀ c ∈ rs, alphanum c = false) : scanFlag U false rs = false := by
  induction rs with
  | nil => rfl
  | cons r rs ih =>
    have hr : alphanum r = false := h r (List.mem_cons_self _ _)
    have hrs := ih (fun c hc => h c (List.mem_cons_of_mem _ hc))
    unfold scanFlag
    by_cases h2 : U.isNop r = true
    · simp [hr, h2, hrs]
    · simp [hr, h2, hrs]

/-- A run without letters or digits that holds a code point which is not
ignored, met with the flag armed, appends one separator and disarms the flag. -/
theorem scan_separator_run (U : UnicodeLib) {w : List Char}
    (h : ∀ c ∈ w, alphanum c = false) (hex : ∃ c ∈ w, U.isNop c = false) :
    scanOut U true w = [Replacement] ∧ scanFlag U true w = false := by
  induction w with
  | nil => simp at hex
  | cons r rs ih =>
    have hr : alphanum r = false := h r (List.mem_cons_self _ _)
    have hrs : ∀ c ∈ rs, alphanum c = false := fun c hc => h c (List.mem_cons_of_mem _ hc)
    unfold scanOut scanFlag
    by_cases h2 : U.isNop r = true
    · have hex2 : ∃ c ∈ rs, U.isNop c = false := by
        obtain ⟨c, hc, hcn⟩ := hex
        rcases List.mem_cons.mp hc with rfl | hc
        · rw [h2] at hcn; cases hcn
        · exact ⟨c, hc, hcn⟩
      simpa [hr, h2] using ih hrs hex2
    · simp [hr, h2, scanOut_false_of_no_alphanum U hrs, scanFlag_false_of_no_alphanum U hrs]

/-- The rune-level form of C2 (amended). -/
theorem cleanRunes_separator_run (U : UnicodeLib) (u w v : List Char) (a b : Char)
    (hu : u.getLast? = some a) (ha : alphanum a = true)
    (hv : v.head? = some b) (hb : alphanum b = true)
    (hw : ∀ c ∈ w, alphanum c = false) (hex : ∃ c ∈ w, U.isNop c = false) :
    cleanRunes U (u ++ w ++ v) = cleanRunes U u ++ [Replacement] ++ cleanRunes U v := by
  have hu2 : u = u.dropLast ++ [a] := (List.dropLast_append_getLast? a hu).symm
  obtain ⟨v2, rfl⟩ : ∃ v2, v = b :: v2 := by
    cases v with
    | nil => simp at hv
    | cons x xs => simp at hv; exact ⟨xs, by rw [hv]⟩
  have hlast : scanOut U (scanFlag U false u.dropLast) [a] = [toLower a] := by
    simp [scanOut, ha]
  have houtu : scanOut U false u = scanOut U false u.dropLast ++ [toLower a] := by
    conv_lhs => rw [hu2]
    rw [scanOut_append, hlast]
  have hflagu : scanFlag U false u = true := by
    rw [hu2, scanFlag_append]
    simp [scanFlag, ha]
  have hvany : ∀ f, scanOut U f (b :: v2) = toLower b :: scanOut U true v2 := by
    intro f
    simp [scanOut, hb]
  obtain ⟨hw1, hw2⟩ := scan_separator_run U hw hex
  have hlow : toLower a ≠ Replacement := isLowerAlnum_ne_replacement (isLowerAlnum_toLower ha)
  have hstripu : stripTrailing (scanOut U false u) = scanOut U false u := by
    apply stripTrailing_of_getLast
    rw [houtu, List.getLast?_append_of_ne_nil _ (by simp)]
    simpa using hlow
  unfold cleanRunes
  rw [scan_buf, scan_buf, scan_buf, hstripu, scanOut_append, scanOut_append,
    scanFlag_append, hflagu, hw1, hw2, hvany false]
  rw [stripTrailing_append (by simp)]

/-- C2 (amended). For strings `u`, `w`, `v` such that the decomposition of
`u ++ w ++ v` is the concatenation of the three decompositions, that of `u`
ends in an ASCII letter or digit, that of `v` begins with one, and that of `w`
holds no ASCII letter or digit and at least one code point outside the
ignorable classes: `Clean(u ++ w ++ v) = Clean(u) ++ "_" ++ Clean(v)`. -/
theorem Clean_separator_run (U : UnicodeLib) (u w v : String) (a b : Char)
    (hsplit : U.nfkd (u ++ w ++ v) = U.nfkd u ++ U.nfkd w ++ U.nfkd v)
    (hu : (U.nfkd u).getLast? = some a) (ha : alphanum a = true)
    (hv : (U.nfkd v).head? = some b) (hb : alphanum b = true)
    (hw : ∀ c ∈ U.nfkd w, alphanum c = false)
    (hex : ∃ c ∈ U.nfkd w, U.isNop c = false) :
    Clean U (u ++ w ++ v) = Clean U u ++ "_" ++ Clean U v := by
  apply String.ext
  show cleanRunes U (U.nfkd (u ++ w ++ v)) =
    (String.mk (cleanRunes U (U.nfkd u)) ++ "_" ++ String.mk (cleanRunes U (U.nfkd v))).data
  rw [hsplit, cleanRunes_separator_run U _ _ _ a b hu ha hv hb hw hex]
  simp [String.data_append]
  rfl

/-- Witness of C2 (amended): `Clean("Hello, World!") = "hello_world"`. -/
theorem Clean_separator_run_witness :
    Clean fragmentLib ("Hello" ++ ", " ++ "World!") =
        Clean fragmentLib "Hello" ++ "_" ++ Clean fragmentLib "World!" ∧
      Clean fragmentLib ("Hello" ++ ", " ++ "World!") = "hello_world" :=
  ⟨Clean_separator_run fragmentLib "Hello" ", " "World!" 'o' 'W'
      (by decide) (by decide) (by decide) (by decide) (by decide) (by decide)
      ⟨',', by decide, by decide⟩,
    by decide⟩

/-- C2 fails as stated: a run of ignored code points (a tab, class `Cc`) between
two letters leaves no separator, and a run whose decomposition is a letter
(U+02B0) is kept as that letter. -/
theorem Clean_separator_run_counterexample :
    ((∀ c ∈ ("\t" : String).data, alphanum c = false) ∧ ("\t" : String) ≠ "" ∧
        Clean fragmentLib ("a" ++ "\t" ++ "b") = "ab" ∧
        Clean fragmentLib "a" ++ "_" ++ Clean fragmentLib "b" = "a_b") ∧
      ((∀ c ∈ ("\u02B0" : String).data, alphanum c = false) ∧ ("\u02B0" : String) ≠ "" ∧
        Clean fragmentLib ("a" ++ "\u02B0" ++ "b") = "ahb" ∧
        Clean fragmentLib "a" ++ "_" ++ Clean fragmentLib "b" = "a_b") := by
  refine ⟨⟨?_, ?_, ?_, ?_⟩, ⟨?_, ?_, ?_, ?_⟩⟩ <;> decide

/-! ## Theorems: catalog lister -/

/-- The loop stops at the first page whose status is not 200, with what the
earlier pages gave and the `err` of the successful `http.Get`, which is nil. -/
theorem getBookUrlsLoop_status {Doc Sel : Type} (W : World Doc Sel) (allbooksurl : String)
    (docs : Nat → Doc) (ps : List Nat) (m : Nat) (rest : List Nat) (acc : List String)
    (hok : ∀ pg ∈ ps, ∃ res, W.Get (pageUrl allbooksurl pg) = .ok res ∧
      res.StatusCode = 200 ∧ W.NewDocumentFromReader res = .ok (docs pg))
    (res : Response) (hget : W.Get (pageUrl allbooksurl m) = .ok res)
    (hst : res.StatusCode ≠ 200) :
    getBookUrlsLoop W allbooksurl (ps ++ m :: rest) acc =
      (acc ++ ps.flatMap (fun pg => pageHrefs W (docs pg)), none) := by
  induction ps generalizing acc with
  | nil => simp [getBookUrlsLoop, hget, hst]
  | cons pg ps ih =>
    obtain ⟨r, hr1, hr2, hr3⟩ := hok pg (List.mem_cons_self _ _)
    have ih2 := ih (acc ++ pageHrefs W (docs pg))
      (fun q hq => hok q (List.mem_cons_of_mem _ hq))
    simp [getBookUrlsLoop, hr1, hr2, hr3, ih2]

theorem range_split (m : Nat) (hm1 : 1 ≤ m) (hm2 : m < maxpg) :
    List.range' 1 (maxpg - 1) =
      List.range' 1 (m - 1) ++ m :: List.range' (m + 1) (maxpg - 1 - m) := by
  have hmax : maxpg = 277 := rfl
  rw [hmax] at hm2 ⊢
  have h1 : 277 - 1 = (277 - 1 - m + 1) + (m - 1) := by omega
  have h2 : m :: List.range' (m + 1) (277 - 1 - m) =
      List.range' (1 + (m - 1)) (277 - 1 - m + 1) := by
    have e : 1 + (m - 1) = m := by omega
    rw [e, List.range'_succ]
  rw [h2, List.range'_append_1, ← h1]

/-- C5, what the code does: when page `m` answers with a status other than 200,
all earlier pages having been fetched and parsed, `GetBookUrls` returns the
addresses of pages `1..m-1` in page-then-in-page order, and a nil error. -/
theorem GetBookUrls_status_error {Doc Sel : Type} (W : World Doc Sel) (allbooksurl : String)
    (docs : Nat → Doc) (m : Nat) (hm1 : 1 ≤ m) (hm2 : m < maxpg)
    (hok : ∀ pg, 1 ≤ pg → pg < m → ∃ res, W.Get (pageUrl allbooksurl pg) = .ok res ∧
      res.StatusCode = 200 ∧ W.NewDocumentFromReader res = .ok (docs pg))
    (res : Response) (hget : W.Get (pageUrl allbooksurl m) = .ok res)
    (hst : res.StatusCode ≠ 200) :
    GetBookUrls W allbooksurl =
      ((List.range' 1 (m - 1)).flatMap (fun pg => pageHrefs W (docs pg)), none) := by
  unfold GetBookUrls
  rw [range_split m hm1 hm2]
  have := getBookUrlsLoop_status W allbooksurl docs (List.range' 1 (m - 1)) m
    (List.range' (m + 1) (maxpg - 1 - m)) [] (by
      intro pg hpg
      rw [List.mem_range'_1] at hpg
      exact hok pg hpg.1 (by omega)) res hget hst
  simpa using this

/-- Witness of C5 on the sample site, whose third listing page answers 500:
the four addresses of pages 1 and 2 come back with a nil error. -/
theorem GetBookUrls_status_error_witness :
    GetBookUrls sampleWorld "http://site/all" = (["/b1", "/b2", "/b3", "/b4"], none) ∧
      GetBookUrls sampleWorld "http://site/all" =
        ((List.range' 1 (3 - 1)).flatMap
          (fun pg => pageHrefs sampleWorld
            (samplePages (if pg = 1 then "listing-1" else "listing-2"))), none) :=
  ⟨by decide,
    GetBookUrls_status_error sampleWorld "http://site/all"
      (fun pg => samplePages (if pg = 1 then "listing-1" else "listing-2")) 3
      (by decide) (by decide)
      (by
        intro pg h1 h2
        have hpg : pg = 1 ∨ pg = 2 := by omega
        rcases hpg with rfl | rfl
        · exact ⟨⟨200, "200 OK", "listing-1"⟩, rfl, rfl, rfl⟩
        · exact ⟨⟨200, "200 OK", "listing-2"⟩, rfl, rfl, rfl⟩)
      ⟨500, "500 Internal Server Error", ""⟩ rfl (by decide)⟩

/-! ## Theorems: feed builder -/

/-- C6, what the code does: when the detail page answers with a status other
than 200, `CreateFeedFromAPI` and `CreateFeedFromPage` make no file-system
call, and the error they return is the nil `err` of the successful
`http.Get`. -/
theorem CreateFeed_status_error {Doc Sel : Type} (W : World Doc Sel) (bookurl : String)
    (res : Response) (hget : W.Get bookurl = .ok res) (hst : res.StatusCode ≠ 200) :
    ((CreateFeedFromAPI W bookurl).err = none ∧ (CreateFeedFromAPI W bookurl).fs = []) ∧
      ((CreateFeedFromPage W bookurl).err = none ∧ (CreateFeedFromPage W bookurl).fs = []) := by
  simp [CreateFeedFromAPI, CreateFeedFromPage, hget, hst]

/-- Witness of C6 on the sample site, at the address that answers 404. -/
theorem CreateFeed_status_error_witness :
    ((CreateFeedFromAPI sampleWorld "http://site/gone").err = none ∧
        (CreateFeedFromAPI sampleWorld "http://site/gone").fs = []) ∧
      ((CreateFeedFromPage sampleWorld "http://site/gone").err = none ∧
        (CreateFeedFromPage sampleWorld "http://site/gone").fs = []) :=
  CreateFeed_status_error sampleWorld "http://site/gone" ⟨404, "404 Not Found", ""⟩
    rfl (by decide)

/-- C7. For every detail page (fetched with status 200 and parsed) whose
trimmed author and title give `Clean(author ++ " " ++ title) = ""`,
`CreateFeedFromAPI` and `CreateFeedFromPage` return a non-nil error and make
no file-system call: no file is created or written. -/
theorem CreateFeed_empty_filename {Doc Sel : Type} (W : World Doc Sel) (bookurl : String)
    (res : Response) (doc : Doc) (hget : W.Get bookurl = .ok res)
    (hst : res.StatusCode = 200) (hdoc : W.NewDocumentFromReader res = .ok doc)
    (hclean : Clean W.unicode
      (W.TrimSpace (W.Text (W.Find (W.root doc)
          "article.post .header-station > .entry-header .entry-auteur a")) ++ " " ++
        W.TrimSpace (W.Text (W.Find (W.root doc)
          "article.post .header-station > .entry-header h1.entry-title"))) = "") :
    ((CreateFeedFromAPI W bookurl).err ≠ none ∧ (CreateFeedFromAPI W bookurl).fs = []) ∧
      ((CreateFeedFromPage W bookurl).err ≠ none ∧ (CreateFeedFromPage W bookurl).fs = []) := by
  simp [CreateFeedFromAPI, CreateFeedFromPage, hget, hst, hdoc, hclean]

/-- Witness of C7 on the sample site, at the page whose title is blank and
whose author is empty. -/
theorem CreateFeed_empty_filename_witness :
    ((CreateFeedFromAPI sampleWorld "http://site/untitled").err ≠ none ∧
        (CreateFeedFromAPI sampleWorld "http://site/untitled").fs = []) ∧
      ((CreateFeedFromPage sampleWorld "http://site/untitled").err ≠ none ∧
        (CreateFeedFromPage sampleWorld "http://site/untitled").fs = []) :=
  CreateFeed_empty_filename sampleWorld "http://site/untitled" ⟨200, "200 OK", "untitled"⟩
    (samplePages "untitled") rfl (by decide) rfl (by decide)

theorem eachFrom_pageChapter {Doc Sel : Type} (W : World Doc Sel) (ss : List Sel) (k : Nat)
    (feed : Feed) :
    eachFrom (pageChapter W) k ss feed =
      { feed with Items := feed.Items ++ pageItemsFrom W k ss } := by
  induction ss generalizing k feed with
  | nil => simp [eachFrom, pageItemsFrom]
  | cons s ss ih => simp [eachFrom, pageItemsFrom, ih, pageChapter]

theorem apiChapter_eq {Doc Sel : Type} (W : World Doc Sel) (feed : Feed) (i : Nat) (s : Sel) :
    apiChapter W feed i s =
      match fetchedBody W s with
      | none => feed
      | some body =>
        { feed with Items := feed.Items ++
            [mkItem W i (W.Unmarshal body).1.Title.Rendered (W.Unmarshal body).1.Meta.Stream] } := by
  unfold apiChapter fetchedBody
  cases hget : W.Get (stationUrl (W.Attr s "data-play-id")) with
  | error e => simp [hget]
  | ok res =>
    by_cases hst : res.StatusCode = 200
    · cases hread : W.ReadAll res with
      | error e => simp [hget, hst, hread]
      | ok body => simp [hget, hst, hread]
    · simp [hget, hst]

theorem eachFrom_apiChapter {Doc Sel : Type} (W : World Doc Sel) (ss : List Sel) (k : Nat)
    (feed : Feed) :
    eachFrom (apiChapter W) k ss feed =
      { feed with Items := feed.Items ++ apiItemsFrom W k ss } := by
  induction ss generalizing k feed with
  | nil => simp [eachFrom, apiItemsFrom]
  | cons s ss ih =>
    rw [eachFrom, ih, apiChapter_eq, apiItemsFrom]
    cases fetchedBody W s with
    | none => rfl
    | some body => simp

/-- The items of the feed `CreateFeedFromPage` builds for a detail page. -/
theorem CreateFeedFromPage_items {Doc Sel : Type} (W : World Doc Sel) (bookurl : String)
    (doc : Doc) (hpage : DetailPage W bookurl doc) :
    (CreateFeedFromPage W bookurl).feed.Items = pageItemsFrom W 0 (chapters W doc) := by
  obtain ⟨res, hget, hst, hdoc, hne⟩ := hpage
  unfold CreateFeedFromPage
  simp only [hget, hst, hdoc, ne_eq, not_true_eq_false, if_false, hne, eachFrom_pageChapter]
  split <;> [skip; split] <;> split <;> simp [chapters]

/-- The items of the feed `CreateFeedFromAPI` builds for a detail page. -/
theorem CreateFeedFromAPI_items {Doc Sel : Type} (W : World Doc Sel) (bookurl : String)
    (doc : Doc) (hpage : DetailPage W bookurl doc) :
    (CreateFeedFromAPI W bookurl).feed.Items = apiItemsFrom W 0 (chapters W doc) := by
  obtain ⟨res, hget, hst, hdoc, hne⟩ := hpage
  unfold CreateFeedFromAPI
  simp only [hget, hst, hdoc, ne_eq, not_true_eq_false, if_false, hne, eachFrom_apiChapter]
  split <;> [skip; split] <;> split <;> simp [chapters]

/-- C8 fails on the code: on the sample detail page, the station of chapter 12
answers status 200 with a body that is not JSON.  `json.Unmarshal` reports an
error, which the callback does not look at, and the chapter contributes an item
with empty title and address; the chapter whose station answers 404 is skipped,
and the feed is written. -/
theorem CreateFeedFromAPI_malformed_json :
    fetchedBody sampleWorld (SampleSel.inTrack ⟨"12", "Chapitre 2", "/2.mp3"⟩ "") =
        some "<html>not json</html>" ∧
      (sampleWorld.Unmarshal "<html>not json</html>").2 ≠ none ∧
      (CreateFeedFromAPI sampleWorld "http://site/horla").feed.Items =
        [mkItem sampleWorld 0 "Chapitre 1" "http://site/1.mp3", mkItem sampleWorld 1 "" ""] ∧
      (CreateFeedFromAPI sampleWorld "http://site/horla").err = none ∧
      (CreateFeedFromAPI sampleWorld "http://site/horla").fs =
        [FsOp.Create "maupassant_le_horla.rss",
          FsOp.WriteString "maupassant_le_horla.rss" "Le Horla/2"] := by
  refine ⟨?_, ?_, ?_, ?_, ?_⟩ <;> decide

theorem dayOffset_eq {i : Nat} (h : i < maxChapters) : dayOffset i = 24 * (i : Int) * Hour := by
  have hmax : maxChapters = 106752 := rfl
  rw [hmax] at h
  unfold dayOffset wrapInt64 Hour
  norm_num
  omega

theorem created_lt {Doc Sel : Type} (W : World Doc Sel)
    (hclock : ∀ i j, i ≤ j → W.Now i ≤ W.Now j) {i j : Nat} (hij : i < j)
    (hj : j < maxChapters) : created W i < created W j := by
  have h1 := hclock i j (Nat.le_of_lt hij)
  unfold created
  rw [dayOffset_eq hj, dayOffset_eq (Nat.lt_trans hij hj)]
  unfold Hour
  omega

theorem pageItemsFrom_length {Doc Sel : Type} (W : World Doc Sel) (ss : List Sel) (k : Nat) :
    (pageItemsFrom W k ss).length = ss.length := by
  induction ss generalizing k with
  | nil => rfl
  | cons s ss ih => simp [pageItemsFrom, ih]

theorem pageItemsFrom_getElem? {Doc Sel : Type} (W : World Doc Sel) (ss : List Sel)
    (k i : Nat) :
    (pageItemsFrom W k ss)[i]? =
      (ss[i]?).map (fun s => mkItem W (k + i) (W.Text (W.Find s ".entry-header .entry-title"))
        (W.Attr (W.Find s ".entry-footer a.no-ajax") "href")) := by
  induction ss generalizing k i with
  | nil => simp [pageItemsFrom]
  | cons s ss ih =>
    cases i with
    | zero => simp [pageItemsFrom]
    | succ i =>
      simp only [pageItemsFrom, List.getElem?_cons_succ, ih]
      have : k + 1 + i = k + (i + 1) := by omega
      rw [this]

theorem pageItemsFrom_created {Doc Sel : Type} (W : World Doc Sel) (ss : List Sel) (k : Nat) :
    ∀ x ∈ pageItemsFrom W k ss, ∃ j, k ≤ j ∧ j < k + ss.length ∧ x.Created = created W j := by
  induction ss generalizing k with
  | nil => simp [pageItemsFrom]
  | cons s ss ih =>
    intro x hx
    simp only [pageItemsFrom, List.mem_cons] at hx
    rcases hx with rfl | hx
    · exact ⟨k, Nat.le_refl _, by simp, rfl⟩
    · obtain ⟨j, h1, h2, h3⟩ := ih (k + 1) x hx
      exact ⟨j, by omega, by simp only [List.length_cons]; omega, h3⟩

theorem pageItemsFrom_pairwise {Doc Sel : Type} (W : World Doc Sel)
    (hclock : ∀ i j, i ≤ j → W.Now i ≤ W.Now j) (ss : List Sel) (k : Nat)
    (hk : k + ss.length ≤ maxChapters) :
    List.Pairwise (fun a b : Item => a.Created < b.Created) (pageItemsFrom W k ss) := by
  induction ss generalizing k with
  | nil => simp [pageItemsFrom]
  | cons s ss ih =>
    simp only [List.length_cons] at hk
    simp only [pageItemsFrom, List.pairwise_cons]
    refine ⟨?_, ih (k + 1) (by omega)⟩
    intro x hx
    obtain ⟨j, h1, h2, h3⟩ := pageItemsFrom_created W ss (k + 1) x hx
    rw [h3]
    exact created_lt W hclock (by omega) (by omega)

theorem apiItemsFrom_length {Doc Sel : Type} (W : World Doc Sel) (ss : List Sel) (k : Nat)
    (hall : ∀ s ∈ ss, fetchedBody W s ≠ none) :
    (apiItemsFrom W k ss).length = ss.length := by
  induction ss generalizing k with
  | nil => rfl
  | cons s ss ih =>
    have hs := hall s (List.mem_cons_self _ _)
    have ih2 := ih (k + 1) (fun t ht => hall t (List.mem_cons_of_mem _ ht))
    rw [apiItemsFrom]
    cases hb : fetchedBody W s with
    | none => exact absurd hb hs
    | some body => simp [ih2]

theorem apiItemsFrom_getElem? {Doc Sel : Type} (W : World Doc Sel) (ss : List Sel)
    (k i : Nat) (hall : ∀ s ∈ ss, fetchedBody W s ≠ none) (s : Sel) (body : String)
    (hs : ss[i]? = some s) (hb : fetchedBody W s = some body) :
    (apiItemsFrom W k ss)[i]? =
      some (mkItem W (k + i) (W.Unmarshal body).1.Title.Rendered
        (W.Unmarshal body).1.Meta.Stream) := by
  induction ss generalizing k i with
  | nil => simp at hs
  | cons t ss ih =>
    have ht := hall t (List.mem_cons_self _ _)
    rw [apiItemsFrom]
    cases hbt : fetchedBody W t with
    | none => exact absurd hbt ht
    | some bt =>
      cases i with
      | zero =>
        simp only [List.getElem?_cons_zero, Option.some.injEq] at hs
        subst hs
        rw [hb] at hbt
        cases hbt
        simp
      | succ i =>
        simp only [List.getElem?_cons_succ] at hs ⊢
        rw [ih (k + 1) i (fun u hu => hall u (List.mem_cons_of_mem _ hu)) hs]
        have : k + 1 + i = k + (i + 1) := by omega
        rw [this]

theorem apiItemsFrom_created {Doc Sel : Type} (W : World Doc Sel) (ss : List Sel) (k : Nat) :
    ∀ x ∈ apiItemsFrom W k ss, ∃ j, k ≤ j ∧ j < k + ss.length ∧ x.Created = created W j := by
  induction ss generalizing k with
  | nil => simp [apiItemsFrom]
  | cons s ss ih =>
    intro x hx
    rw [apiItemsFrom] at hx
    cases hb : fetchedBody W s with
    | none =>
      rw [hb] at hx
      obtain ⟨j, h1, h2, h3⟩ := ih (k + 1) x hx
      exact ⟨j, by omega, by simp only [List.length_cons]; omega, h3⟩
    | some body =>
      rw [hb] at hx
      simp only [List.mem_cons] at hx
      rcases hx with rfl | hx
      · exact ⟨k, Nat.le_refl _, by simp, rfl⟩
      · obtain ⟨j, h1, h2, h3⟩ := ih (k + 1) x hx
        exact ⟨j, by omega, by simp only [List.length_cons]; omega, h3⟩

theorem apiItemsFrom_pairwise {Doc Sel : Type} (W : World Doc Sel)
    (hclock : ∀ i j, i ≤ j → W.Now i ≤ W.Now j) (ss : List Sel) (k : Nat)
    (hk : k + ss.length ≤ maxChapters) :
    List.Pairwise (fun a b : Item => a.Created < b.Created) (apiItemsFrom W k ss) := by
  induction ss generalizing k with
  | nil => simp [apiItemsFrom]
  | cons s ss ih =>
    simp only [List.length_cons] at hk
    rw [apiItemsFrom]
    cases hb : fetchedBody W s with
    | none => exact ih (k + 1) (by omega)
    | some body =>
      simp only [List.pairwise_cons]
      refine ⟨?_, ih (k + 1) (by omega)⟩
      intro x hx
      obtain ⟨j, h1, h2, h3⟩ := apiItemsFrom_created W ss (k + 1) x hx
      rw [h3]
      exact created_lt W hclock (by omega) (by omega)

/-- C9 (amended). For every detail page with at most 106752 chapters, read
with a clock that does not run backwards: the feed built by
`CreateFeedFromPage` has one item per chapter, in source order; the item of
chapter `i` (counted from 0) is stamped with the clock reading taken at that
chapter plus `i` times 24 hours; the stamps are strictly increasing.  The same
holds for `CreateFeedFromAPI` when every secondary fetch goes through. -/
theorem feed_items_in_order {Doc Sel : Type} (W : World Doc Sel) (bookurl : String)
    (doc : Doc) (hpage : DetailPage W bookurl doc)
    (hclock : ∀ i j, i ≤ j → W.Now i ≤ W.Now j)
    (hn : (chapters W doc).length ≤ maxChapters) :
    ((CreateFeedFromPage W bookurl).feed.Items.length = (chapters W doc).length ∧
      (∀ (i : Nat) (s : Sel), (chapters W doc)[i]? = some s →
        (CreateFeedFromPage W bookurl).feed.Items[i]? =
          some
            ({ Title := W.Text (W.Find s ".entry-header .entry-title"),
               Link := { Href := W.Attr (W.Find s ".entry-footer a.no-ajax") "href" },
               Enclosure :=
                 { Url := W.Attr (W.Find s ".entry-footer a.no-ajax") "href",
                   Type_ := "audio/mpeg", Length := "1000000" },
               Description := W.Text (W.Find s ".entry-header .entry-title"),
               Created := W.Now i + (i : Int) * (24 * Hour) } : Item)) ∧
      List.Pairwise (fun a b : Item => a.Created < b.Created)
        (CreateFeedFromPage W bookurl).feed.Items) ∧
    ((∀ s ∈ chapters W doc, fetchedBody W s ≠ none) →
      (CreateFeedFromAPI W bookurl).feed.Items.length = (chapters W doc).length ∧
      (∀ (i : Nat) (s : Sel) (body : String),
        (chapters W doc)[i]? = some s → fetchedBody W s = some body →
        (CreateFeedFromAPI W bookurl).feed.Items[i]? =
          some
            ({ Title := (W.Unmarshal body).1.Title.Rendered,
               Link := { Href := (W.Unmarshal body).1.Meta.Stream },
               Enclosure :=
                 { Url := (W.Unmarshal body).1.Meta.Stream,
                   Type_ := "audio/mpeg", Length := "1000000" },
               Description := (W.Unmarshal body).1.Title.Rendered,
               Created := W.Now i + (i : Int) * (24 * Hour) } : Item)) ∧
      List.Pairwise (fun a b : Item => a.Created < b.Created)
        (CreateFeedFromAPI W bookurl).feed.Items) := by
  have hstamp : ∀ i, (∃ s, (chapters W doc)[i]? = some s) →
      created W i = W.Now i + (i : Int) * (24 * Hour) := by
    intro i ⟨s, hs⟩
    have hi : i < (chapters W doc).length := by
      rcases Nat.lt_or_ge i (chapters W doc).length with h | h
      · exact h
      · rw [List.getElem?_eq_none h] at hs; cases hs
    unfold created
    rw [dayOffset_eq (Nat.lt_of_lt_of_le hi hn)]
    ring
  rw [CreateFeedFromPage_items W bookurl doc hpage, CreateFeedFromAPI_items W bookurl doc hpage]
  refine ⟨⟨pageItemsFrom_length W _ 0, ?_, pageItemsFrom_pairwise W hclock _ 0 (by omega)⟩, ?_⟩
  · intro i s hs
    rw [pageItemsFrom_getElem?, hs]
    simp [mkItem, hstamp i ⟨s, hs⟩]
  · intro hall
    refine ⟨apiItemsFrom_length W _ 0 hall, ?_, apiItemsFrom_pairwise W hclock _ 0 (by omega)⟩
    intro i s body hs hb
    rw [apiItemsFrom_getElem? W _ 0 i hall s body hs hb]
    simp [mkItem, hstamp i ⟨s, hs⟩]

theorem sampleWorld_clock : ∀ i j : Nat, i ≤ j → sampleWorld.Now i ≤ sampleWorld.Now j := by
  intro i j h
  show (1000000000 : Int) * i ≤ 1000000000 * j
  omega

/-- Witness of C9 (amended) on the sample site: the page with three chapters,
and the page whose two stations both answer. -/
theorem feed_items_in_order_witness :
    (DetailPage sampleWorld "http://site/horla" (samplePages "horla") ∧
      (CreateFeedFromPage sampleWorld "http://site/horla").feed.Items.map Item.Created =
        [0, 86401000000000, 172802000000000] ∧
      List.Pairwise (fun a b : Item => a.Created < b.Created)
        (CreateFeedFromPage sampleWorld "http://site/horla").feed.Items) ∧
    ((∀ s ∈ chapters sampleWorld (samplePages "conte"), fetchedBody sampleWorld s ≠ none) ∧
      (CreateFeedFromAPI sampleWorld "http://site/conte").feed.Items.length = 2 ∧
      List.Pairwise (fun a b : Item => a.Created < b.Created)
        (CreateFeedFromAPI sampleWorld "http://site/conte").feed.Items) :=
  ⟨⟨⟨⟨200, "200 OK", "horla"⟩, rfl, rfl, rfl, by decide⟩, by decide,
      (feed_items_in_order sampleWorld "http://site/horla" (samplePages "horla")
        ⟨⟨200, "200 OK", "horla"⟩, rfl, rfl, rfl, by decide⟩ sampleWorld_clock
        (by decide)).1.2.2⟩,
    ⟨by decide,
      ((feed_items_in_order sampleWorld "http://site/conte" (samplePages "conte")
        ⟨⟨200, "200 OK", "conte"⟩, rfl, rfl, rfl, by decide⟩ sampleWorld_clock
        (by decide)).2 (by decide)).1,
      ((feed_items_in_order sampleWorld "http://site/conte" (samplePages "conte")
        ⟨⟨200, "200 OK", "conte"⟩, rfl, rfl, rfl, by decide⟩ sampleWorld_clock
        (by decide)).2 (by decide)).2.2⟩⟩

theorem longWorld_page (n : Nat) : DetailPage (longWorld n) "u" () :=
  ⟨⟨200, "200 OK", ""⟩, rfl, rfl, rfl, by
    show Clean fragmentLib ("a" ++ " " ++ "a") ≠ ""
    decide⟩

theorem longWorld_created (n i : Nat) (h : i < n) :
    ((CreateFeedFromPage (longWorld n) "u").feed.Items[i]?).map Item.Created =
      some (dayOffset i) := by
  rw [CreateFeedFromPage_items (longWorld n) "u" () (longWorld_page n), pageItemsFrom_getElem?]
  have hs : (chapters (longWorld n) ())[i]? = some () := by
    show (List.replicate n ())[i]? = some ()
    rw [List.getElem?_replicate, if_pos h]
  rw [hs]
  simp [mkItem, created, longWorld]

/-- C9 fails as stated: on a detail page with 106753 chapters, read with a clock
that stands still, the `int64` nanosecond count `time.Duration(24*i) *
time.Hour` wraps around at `i = 106752`, and the item of that chapter is
stamped some 584 years before the one in front of it. -/
theorem created_order_counterexample :
    ((CreateFeedFromPage (longWorld 106753) "u").feed.Items[106751]?).map Item.Created =
        some 9223286400000000000 ∧
      ((CreateFeedFromPage (longWorld 106753) "u").feed.Items[106752]?).map Item.Created =
        some (-9223371273709551616) ∧
      ¬ List.Pairwise (fun a b : Item => a.Created < b.Created)
        (CreateFeedFromPage (longWorld 106753) "u").feed.Items := by
  have h1 := longWorld_created 106753 106751 (by decide)
  have h2 := longWorld_created 106753 106752 (by decide)
  have e1 : dayOffset 106751 = 9223286400000000000 := by decide
  have e2 : dayOffset 106752 = -9223371273709551616 := by decide
  rw [e1] at h1
  rw [e2] at h2
  refine ⟨h1, h2, ?_⟩
  intro hp
  generalize (CreateFeedFromPage (longWorld 106753) "u").feed.Items = l at h1 h2 hp
  rw [List.pairwise_iff_getElem] at hp
  obtain ⟨a, ha, hca⟩ := Option.map_eq_some'.mp h1
  obtain ⟨b, hb, hcb⟩ := Option.map_eq_some'.mp h2
  obtain ⟨hai, hae⟩ := List.getElem?_eq_some.mp ha
  obtain ⟨hbi, hbe⟩ := List.getElem?_eq_some.mp hb
  have := hp 106751 106752 hai hbi (by decide)
  rw [hae, hbe, hca, hcb] at this
  exact absurd this (by decide)

/-! ## Theorems: harvest coordinator -/

theorem sum_map_set {M : Type} [AddCommMonoid M] (f : WorkerState → M)
    (l : List WorkerState) (w : Nat) (old new : WorkerState) (h : l[w]? = some old) :
    ((l.set w new).map f).sum + f old = (l.map f).sum + f new := by
  induction l generalizing w with
  | nil => simp at h
  | cons a l ih =>
    cases w with
    | zero =>
      simp only [List.getElem?_cons_zero, Option.some.injEq] at h
      subst h
      simp only [List.set_cons_zero, List.map_cons, List.sum_cons]
      abel
    | succ w =>
      simp only [List.getElem?_cons_succ] at h
      simp only [List.set_cons_succ, List.map_cons, List.sum_cons]
      rw [add_assoc, ih w h, add_assoc]

theorem start_reachable (bookurls : List String) (P : Nat) :
    Reachable bookurls P (start bookurls P) := by
  have hw : ∀ n : Nat, ((List.replicate n WorkerState.receiving).map workingM).sum = 0 := by
    intro n
    induction n with
    | zero => rfl
    | succ n ih => simp [List.replicate_succ, workingM, ih]
  have hs : ∀ n : Nat, ((List.replicate n WorkerState.receiving).map sendingM).sum = 0 := by
    intro n
    induction n with
    | zero => rfl
    | succ n ih => simp [List.replicate_succ, sendingM, ih]
  refine ⟨rfl, by simp [start], ?_, ?_, ?_, ?_⟩
  · simp only [start]
    rw [hw, hs]
    simp
  · simp only [start]
    rw [hs]
    simp
  · intro h
    simp [start] at h
  · intro _ w hw2
    simp only [start] at hw2
    rw [List.eq_of_mem_replicate hw2]
    simp

theorem stepsLeft_start (bookurls : List String) (P : Nat) :
    stepsLeft (start bookurls P) = 3 * bookurls.length + 1 + P := by
  simp [stepsLeft, start, rank]

/-- The five ways a step can be taken. -/
theorem step_cases {Doc Sel : Type} (W : World Doc Sel) (a : Action) (s t : PoolState)
    (h : step W a s = some t) :
    finished s = false ∧
    ((∃ w u rest, a = .send w ∧ s.pending = u :: rest ∧ s.workers[w]? = some .receiving ∧
        t = { s with pending := rest, workers := s.workers.set w (.working u) }) ∨
      (a = .close ∧ s.pending = [] ∧ s.closed = false ∧ t = { s with closed := true }) ∨
      (∃ w u, a = .work w ∧ s.workers[w]? = some (.working u) ∧
        t = { s with
          workers := s.workers.set w (.sending u)
          processed := s.processed ++ [(w, u)]
          errors := s.errors ++ (CreateFeedFromAPI W u).err.toList }) ∨
      (∃ w u, a = .report w ∧ s.workers[w]? = some (.sending u) ∧
        t = { s with workers := s.workers.set w .receiving, received := s.received ++ [u] }) ∨
      (∃ w, a = .ret w ∧ s.workers[w]? = some .receiving ∧ s.closed = true ∧
        t = { s with workers := s.workers.set w .returned })) := by
  unfold step at h
  by_cases hf : finished s = true
  · simp [hf] at h
  · simp only [hf, Bool.false_eq_true, if_false] at h
    refine ⟨by simpa using hf, ?_⟩
    cases a with
    | send w =>
      simp only at h
      split at h
      · rename_i u rest hp hw
        cases h
        exact Or.inl ⟨w, u, rest, rfl, hp, hw, rfl⟩
      · cases h
    | close =>
      simp only at h
      split at h
      · rename_i hc
        cases h
        exact Or.inr (Or.inl ⟨rfl, hc.1, hc.2, rfl⟩)
      · cases h
    | work w =>
      simp only at h
      split at h
      · rename_i u hw
        cases h
        exact Or.inr (Or.inr (Or.inl ⟨w, u, rfl, hw, rfl⟩))
      · cases h
    | report w =>
      simp only at h
      split at h
      · rename_i u hw
        cases h
        exact Or.inr (Or.inr (Or.inr (Or.inl ⟨w, u, rfl, hw, rfl⟩)))
      · cases h
    | ret w =>
      simp only at h
      split at h
      · rename_i hw
        split at h
        · rename_i hc
          cases h
          exact Or.inr (Or.inr (Or.inr (Or.inr ⟨w, rfl, hw, hc, rfl⟩)))
        · cases h
      · cases h

/-- Every step uses up one of the steps left. -/
theorem stepsLeft_step {Doc Sel : Type} (W : World Doc Sel) (a : Action) (s t : PoolState)
    (h : step W a s = some t) : stepsLeft t + 1 = stepsLeft s := by
  obtain ⟨_, h⟩ := step_cases W a s t h
  rcases h with ⟨w, u, rest, -, hp, hw, rfl⟩ | ⟨-, hp, hc, rfl⟩ | ⟨w, u, -, hw, rfl⟩ |
    ⟨w, u, -, hw, rfl⟩ | ⟨w, -, hw, hc, rfl⟩
  · have := sum_map_set rank s.workers w _ (.working u) hw
    simp only [stepsLeft, hp, List.length_cons, rank] at this ⊢
    omega
  · simp only [stepsLeft, hp, hc, List.length_nil]
    simp
    omega
  · have := sum_map_set rank s.workers w _ (.sending u) hw
    simp only [stepsLeft, rank] at this ⊢
    omega
  · have := sum_map_set rank s.workers w _ .receiving hw
    simp only [stepsLeft, rank] at this ⊢
    omega
  · have := sum_map_set rank s.workers w _ .returned hw
    simp only [stepsLeft, rank] at this ⊢
    omega

/-- A step leads from a reachable state to a reachable state. -/
theorem step_reachable {Doc Sel : Type} (W : World Doc Sel) (bookurls : List String) (P : Nat)
    (a : Action) (s t : PoolState) (hs : Reachable bookurls P s) (h : step W a s = some t) :
    Reachable bookurls P t := by
  obtain ⟨_, h⟩ := step_cases W a s t h
  obtain ⟨h1, h2, h3, h4, h5, h6⟩ := hs
  rcases h with ⟨w, u, rest, -, hp, hw, rfl⟩ | ⟨-, hp, hc, rfl⟩ | ⟨w, u, -, hw, rfl⟩ |
    ⟨w, u, -, hw, rfl⟩ | ⟨w, -, hw, hc, rfl⟩
  · have e1 := sum_map_set workingM s.workers w _ (.working u) hw
    have e2 := sum_map_set sendingM s.workers w _ (.working u) hw
    simp only [workingM, sendingM, add_zero] at e1 e2
    refine ⟨h1, by simpa using h2, ?_, ?_, ?_, ?_⟩
    · simp only [e1, e2]
      rw [h3, hp, ← Multiset.cons_coe, ← Multiset.singleton_add]
      abel
    · simp only [e2]
      exact h4
    · intro hc
      have := h5 hc
      rw [hp] at this
      cases this
    · intro hc x hx
      rcases List.mem_or_eq_of_mem_set hx with hx | rfl
      · exact h6 hc x hx
      · simp
  · refine ⟨h1, h2, h3, h4, fun _ => hp, ?_⟩
    intro hc2
    simp at hc2
  · have e1 := sum_map_set workingM s.workers w _ (.sending u) hw
    have e2 := sum_map_set sendingM s.workers w _ (.sending u) hw
    simp only [workingM, sendingM, add_zero] at e1 e2
    refine ⟨h1, by simpa using h2, ?_, ?_, h5, ?_⟩
    · simp only [e2]
      rw [h3, ← e1]
      abel
    · simp only [e2, List.map_append, List.map_cons, List.map_nil]
      rw [← Multiset.coe_add, h4, Multiset.coe_singleton]
      abel
    · intro hc x hx
      rcases List.mem_or_eq_of_mem_set hx with hx | rfl
      · exact h6 hc x hx
      · simp
  · have e1 := sum_map_set workingM s.workers w _ .receiving hw
    have e2 := sum_map_set sendingM s.workers w _ .receiving hw
    simp only [workingM, sendingM, add_zero] at e1 e2
    refine ⟨by simpa using h1, by simpa using h2, ?_, ?_, h5, ?_⟩
    · simp only []
      rw [h3, e1, ← e2, ← Multiset.coe_add, Multiset.coe_singleton]
      abel
    · simp only []
      rw [h4, ← e2, ← Multiset.coe_add, Multiset.coe_singleton]
      abel
    · intro hc x hx
      rcases List.mem_or_eq_of_mem_set hx with hx | rfl
      · exact h6 hc x hx
      · simp
  · have e1 := sum_map_set workingM s.workers w _ .returned hw
    have e2 := sum_map_set sendingM s.workers w _ .returned hw
    simp only [workingM, sendingM, add_zero] at e1 e2
    refine ⟨h1, by simpa using h2, ?_, ?_, h5, ?_⟩
    · simp only [e1, e2]
      exact h3
    · simp only [e2]
      exact h4
    · intro hc2
      simp only at hc2
      rw [hc] at hc2
      cases hc2

/-- A run leads from a reachable state to a reachable state, and its length is
the number of steps it has used up. -/
theorem run_reachable {Doc Sel : Type} (W : World Doc Sel) (bookurls : List String) (P : Nat)
    (sched : List Action) (s t : PoolState) (hs : Reachable bookurls P s)
    (h : run W sched s = some t) :
    Reachable bookurls P t ∧ stepsLeft t + sched.length = stepsLeft s := by
  induction sched generalizing s with
  | nil =>
    simp only [run, Option.some.injEq] at h
    subst h
    exact ⟨hs, rfl⟩
  | cons a as ih =>
    simp only [run] at h
    cases hstep : step W a s with
    | none => rw [hstep] at h; cases h
    | some m =>
      rw [hstep] at h
      obtain ⟨h1, h2⟩ := ih m (step_reachable W bookurls P a s m hs hstep) h
      have h3 := stepsLeft_step W a s m hstep
      refine ⟨h1, ?_⟩
      simp only [List.length_cons]
      omega

theorem idle_sums {s : PoolState}
    (hA : ¬ ∃ (w : Nat) (u : String), s.workers[w]? = some (WorkerState.working u))
    (hB : ¬ ∃ (w : Nat) (u : String), s.workers[w]? = some (WorkerState.sending u)) :
    (s.workers.map workingM).sum = 0 ∧ (s.workers.map sendingM).sum = 0 := by
  have hall : ∀ x ∈ s.workers, workingM x = 0 ∧ sendingM x = 0 := by
    intro x hx
    obtain ⟨n, hn⟩ := List.mem_iff_getElem?.mp hx
    cases x with
    | receiving => exact ⟨rfl, rfl⟩
    | working u => exact absurd ⟨n, u, hn⟩ hA
    | sending u => exact absurd ⟨n, u, hn⟩ hB
    | returned => exact ⟨rfl, rfl⟩
  constructor
  · apply List.sum_eq_zero
    intro y hy
    obtain ⟨x, hx, rfl⟩ := List.mem_map.mp hy
    exact (hall x hx).1
  · apply List.sum_eq_zero
    intro y hy
    obtain ⟨x, hx, rfl⟩ := List.mem_map.mp hy
    exact (hall x hx).2

/-- No deadlock: in a reachable state in which `main` still waits for a signal,
some step is enabled. -/
theorem progress {Doc Sel : Type} (W : World Doc Sel) (bookurls : List String) (P : Nat)
    (hP : 1 ≤ P) (s : PoolState) (hs : Reachable bookurls P s) (hf : finished s = false) :
    ∃ a t, step W a s = some t := by
  by_cases hA : ∃ (w : Nat) (u : String), s.workers[w]? = some (WorkerState.working u)
  · obtain ⟨w, u, hw⟩ := hA
    exact ⟨.work w, _, by simp [step, hf, hw]; rfl⟩
  · by_cases hB : ∃ (w : Nat) (u : String), s.workers[w]? = some (WorkerState.sending u)
    · obtain ⟨w, u, hw⟩ := hB
      exact ⟨.report w, _, by simp [step, hf, hw]; rfl⟩
    · obtain ⟨h1, h2, h3, h4, h5, h6⟩ := hs
      obtain ⟨e1, e2⟩ := idle_sums hA hB
      rw [e1, e2, add_zero, add_zero] at h3
      have hcard := congrArg Multiset.card h3
      simp only [Multiset.coe_card, Multiset.card_add] at hcard
      have hne : s.received.length ≠ s.total := by
        simpa [finished] using hf
      cases hp : s.pending with
      | nil =>
        rw [hp] at hcard
        simp only [List.length_nil, add_zero] at hcard
        exact absurd (by omega) hne
      | cons u rest =>
        have hclosed : s.closed = false := by
          cases hc : s.closed with
          | false => rfl
          | true =>
            have := h5 hc
            rw [hp] at this
            cases this
        have h0 : 0 < s.workers.length := by omega
        have hw0 : s.workers[0]? = some (s.workers[0]) := List.getElem?_eq_getElem h0
        have hmem : s.workers[0] ∈ s.workers := List.getElem_mem h0
        have hrecv : s.workers[0] = WorkerState.receiving := by
          cases hx : s.workers[0] with
          | receiving => rfl
          | working v => rw [hx] at hw0; exact absurd ⟨0, v, hw0⟩ hA
          | sending v => rw [hx] at hw0; exact absurd ⟨0, v, hw0⟩ hB
          | returned => rw [hx] at hmem; exact absurd rfl (h6 hclosed _ hmem)
        rw [hrecv] at hw0
        exact ⟨.send 0, _, by simp [step, hf, hp, hw0]; rfl⟩

/-- Termination: from every reachable state some run leads to the end of
`main`. -/
theorem can_finish {Doc Sel : Type} (W : World Doc Sel) (bookurls : List String) (P : Nat)
    (hP : 1 ≤ P) (n : Nat) :
    ∀ s : PoolState, Reachable bookurls P s → stepsLeft s ≤ n →
      ∃ sched t, run W sched s = some t ∧ finished t = true := by
  induction n with
  | zero =>
    intro s hs hn
    cases hf : finished s with
    | true => exact ⟨[], s, rfl, hf⟩
    | false =>
      obtain ⟨a, t, hstep⟩ := progress W bookurls P hP s hs hf
      have := stepsLeft_step W a s t hstep
      omega
  | succ n ih =>
    intro s hs hn
    cases hf : finished s with
    | true => exact ⟨[], s, rfl, hf⟩
    | false =>
      obtain ⟨a, t, hstep⟩ := progress W bookurls P hP s hs hf
      have hlt := stepsLeft_step W a s t hstep
      obtain ⟨sched, r, hrun, hfin⟩ :=
        ih t (step_reachable W bookurls P a s t hs hstep) (by omega)
      exact ⟨a :: sched, r, by simp [run, hstep, hrun], hfin⟩

/-- At the end of `main`, every address has been processed and reported once. -/
theorem finished_exactly_once (bookurls : List String) (P : Nat) (s : PoolState)
    (hs : Reachable bookurls P s) (hf : finished s = true) :
    s.received.length = bookurls.length ∧ s.received.Perm bookurls ∧
      (s.processed.map Prod.snd).Perm bookurls := by
  obtain ⟨h1, h2, h3, h4, h5, h6⟩ := hs
  have hlen : s.received.length = bookurls.length := by
    rw [← h1]
    simpa [finished] using hf
  have hcard := congrArg Multiset.card h3
  simp only [Multiset.coe_card, Multiset.card_add] at hcard
  have hw : (s.workers.map workingM).sum = 0 := Multiset.card_eq_zero.mp (by omega)
  have hsd : (s.workers.map sendingM).sum = 0 := Multiset.card_eq_zero.mp (by omega)
  have hp : s.pending = [] := List.length_eq_zero.mp (by omega)
  rw [hw, hsd, hp] at h3
  rw [hsd] at h4
  simp only [add_zero, Multiset.coe_nil] at h3 h4
  have hperm : s.received.Perm bookurls := (Multiset.coe_eq_coe.mp h3).symm
  exact ⟨hlen, hperm, (Multiset.coe_eq_coe.mp h4).trans hperm⟩

/-- C10. For every list of `M` addresses, every pool size `P >= 1` and every
outcome of the `CreateFeedFromAPI` calls, in every state `s` that an
interleaving of the goroutines reaches: the run has taken at most
`3 * M + P + 1` steps; if `main` has not yet received `M` signals, some step is
enabled (no deadlock) and some continuation reaches the end of `main`; and at
the end of `main` exactly `M` signals have been received, the addresses
received and the addresses processed by the workers being the address list up
to order: none is dropped, none is processed twice. -/
theorem coordinator_completes {Doc Sel : Type} (W : World Doc Sel) (bookurls : List String)
    (P : Nat) (hP : 1 ≤ P) (sched : List Action) (s : PoolState)
    (hrun : run W sched (start bookurls P) = some s) :
    sched.length ≤ 3 * bookurls.length + P + 1 ∧
      (finished s = false → ∃ a t, step W a s = some t) ∧
      (∃ sched2 t, run W sched2 s = some t ∧ finished t = true) ∧
      (finished s = true →
        s.received.length = bookurls.length ∧ s.received.Perm bookurls ∧
          (s.processed.map Prod.snd).Perm bookurls) := by
  obtain ⟨hs, hlen⟩ :=
    run_reachable W bookurls P sched (start bookurls P) s (start_reachable bookurls P) hrun
  rw [stepsLeft_start] at hlen
  refine ⟨by omega, progress W bookurls P hP s hs, ?_, finished_exactly_once bookurls P s hs⟩
  exact can_finish W bookurls P hP (stepsLeft s) s hs (Nat.le_refl _)

/-- Witness of C10: three addresses whose fetch fails each time, a pool of two
workers, and one interleaving up to the end of `main`. -/
theorem coordinator_completes_witness :
    run sampleWorld
        [.send 0, .send 1, .work 0, .work 1, .report 1, .send 1, .report 0, .close, .work 1,
          .ret 0, .report 1]
        (start ["http://x/1", "http://x/2", "http://x/3"] 2) =
      some
        { pending := [], closed := true
          workers := [WorkerState.returned, WorkerState.receiving]
          processed := [(0, "http://x/1"), (1, "http://x/2"), (1, "http://x/3")]
          errors := [⟨"no such host"⟩, ⟨"no such host"⟩, ⟨"no such host"⟩]
          received := ["http://x/2", "http://x/1", "http://x/3"]
          total := 3 } ∧
      ["http://x/2", "http://x/1", "http://x/3"].Perm ["http://x/1", "http://x/2", "http://x/3"] ∧
      ([(0, "http://x/1"), (1, "http://x/2"), (1, "http://x/3")].map Prod.snd).Perm
        ["http://x/1", "http://x/2", "http://x/3"] :=
  ⟨by decide,
    ((coordinator_completes sampleWorld ["http://x/1", "http://x/2", "http://x/3"] 2 (by decide)
      [.send 0, .send 1, .work 0, .work 1, .report 1, .send 1, .report 0, .close, .work 1,
        .ret 0, .report 1]
      { pending := [], closed := true
        workers := [WorkerState.returned, WorkerState.receiving]
        processed := [(0, "http://x/1"), (1, "http://x/2"), (1, "http://x/3")]
        errors := [⟨"no such host"⟩, ⟨"no such host"⟩, ⟨"no such host"⟩]
        received := ["http://x/2", "http://x/1", "http://x/3"]
        total := 3 }
      (by decide)).2.2.2 (by decide)).2⟩

end Ab2rss
